import Mathlib

/-!
Panorama estimation kernel (`main_panoramaEstimation.cpp`).

A shallow embedding of the rotation manifold `SO3Parameterization`, of the
reprojection cost `Cost` and of the problem construction in `main`.

Conventions of the embedding:

* a `double` is an element of a linearly ordered field `α` (the theorems about
  square roots and trigonometric functions are stated over `ℝ`); the elementary
  functions `sqrt`, `sin`, `cos` of the C++ math library are passed explicitly;
* a `double*` is the memory it points to, a function `Nat → α` from offsets to
  values; a function that writes through a pointer takes the old contents and
  returns the new contents;
* `Eigen::Map<Eigen::Matrix<double, 3, 3, Eigen::RowMajor>>` reads entry `(i, j)`
  at offset `3 * i + j`; a `Map` without storage option is column-major, as is
  Eigen's default;
* container sizes and indices are natural numbers (the sample list of the
  program has 64800 entries, far from any machine-integer limit).
-/

namespace PanoramaEstimation

open Matrix

/-! ## Eigen primitives used by the program -/

/-- Three-component vector (`Eigen::Vector3d`, `Vec3`). -/
abbrev Vec3 (α : Type) := Fin 3 → α

/-- Two-component vector (`Vec2`). -/
abbrev Vec2 (α : Type) := Fin 2 → α

/-- Three by three matrix (`Eigen::Matrix3d`, `SO3Matrix`). -/
abbrev Mat3 (α : Type) := Matrix (Fin 3) (Fin 3) α

/-- Row-major view of nine consecutive doubles as a 3x3 matrix:
`Eigen::Map<Eigen::Matrix<double, 3, 3, Eigen::RowMajor>>`. -/
def mapRowMajor3 {α : Type} (p : Nat → α) : Mat3 α :=
  Matrix.of fun i j => p (3 * i.val + j.val)

/-- Assignment of a 3x3 matrix through a row-major map: offsets `0..8` receive the
entries of `M`, the rest of the memory is untouched. -/
def storeRowMajor3 {α : Type} (M : Mat3 α) (p : Nat → α) : Nat → α :=
  fun k => if h : k < 9 then
    M ⟨k / 3, Nat.div_lt_of_lt_mul (by omega)⟩ ⟨k % 3, Nat.mod_lt k (by decide)⟩
  else p k

/-- Eigen `squaredNorm()` of a 3-vector. -/
def squaredNorm {α : Type} [LinearOrderedField α] (v : Vec3 α) : α :=
  v 0 * v 0 + v 1 * v 1 + v 2 * v 2

/-- Eigen `norm()`: the square root of `squaredNorm()`. -/
def norm {α : Type} [LinearOrderedField α] (sqrt : α → α) (v : Vec3 α) : α :=
  sqrt (squaredNorm v)

/-- Eigen `normalize()`: `z = squaredNorm(); if (z > 0) v /= sqrt(z);`. -/
def normalize {α : Type} [LinearOrderedField α] (sqrt : α → α) (v : Vec3 α) : Vec3 α :=
  let z := squaredNorm v
  if z > 0 then fun i => v i / sqrt z else v

/-- Eigen `AngleAxis::toRotationMatrix()`. -/
def toRotationMatrix {α : Type} [LinearOrderedField α] (sin cos : α → α)
    (m_angle : α) (m_axis : Vec3 α) : Mat3 α :=
  let sin_axis : Vec3 α := fun i => sin m_angle * m_axis i
  let c := cos m_angle
  let cos1_axis : Vec3 α := fun i => (1 - c) * m_axis i
  let tmp01 := cos1_axis 0 * m_axis 1
  let tmp02 := cos1_axis 0 * m_axis 2
  let tmp12 := cos1_axis 1 * m_axis 2
  !![cos1_axis 0 * m_axis 0 + c, tmp01 - sin_axis 2, tmp02 + sin_axis 1;
     tmp01 + sin_axis 2, cos1_axis 1 * m_axis 1 + c, tmp12 - sin_axis 0;
     tmp02 - sin_axis 1, tmp12 + sin_axis 0, cos1_axis 2 * m_axis 2 + c]

/-! ## `SO3Parameterization` -/

namespace SO3Parameterization

/-- `SO3Parameterization::Plus(x, delta, x_plus_delta)`: returns the boolean result
and the new contents of `x_plus_delta`. -/
def Plus {α : Type} [LinearOrderedField α] (sqrt sin cos : α → α)
    (x delta x_plus_delta : Nat → α) : Bool × (Nat → α) :=
  let rotation := mapRowMajor3 x
  let axis0 : Vec3 α := ![delta 0, delta 1, delta 2]
  let angle := norm sqrt axis0
  let axis := normalize sqrt axis0
  let Rupdate := toRotationMatrix sin cos angle axis
  (true, storeRowMajor3 (Rupdate * rotation) x_plus_delta)

/-- `SO3Parameterization::ComputeJacobian(x, jacobian)`: returns the boolean result
and the new contents of `jacobian`; `row[i][j]` is `jacobian[i * 3 + j]`. -/
def ComputeJacobian {α : Type} [LinearOrderedField α]
    (_x : Nat → α) (jacobian : Nat → α) : Bool × (Nat → α) :=
  let cleared := (List.range 9).foldl
    (fun buf i => (List.range 3).foldl (fun b j => Function.update b (i * 3 + j) 0) buf)
    jacobian
  let j1 := Function.update cleared (1 * 3 + 2) 1
  let j2 := Function.update j1 (2 * 3 + 1) (-1)
  let j3 := Function.update j2 (3 * 3 + 2) (-1)
  let j4 := Function.update j3 (5 * 3 + 0) 1
  let j5 := Function.update j4 (6 * 3 + 1) 1
  let j6 := Function.update j5 (7 * 3 + 0) (-1)
  (true, j6)

/-- `SO3Parameterization::GlobalSize()`. -/
def GlobalSize : Nat := 9

/-- `SO3Parameterization::LocalSize()`. -/
def LocalSize : Nat := 3

end SO3Parameterization

/-! ## Reading the 9x3 Jacobian of the parameterization -/

/-- The 9x3 matrix stored row-major in the `jacobian` array filled by
`ComputeJacobian` (the layout the solver interface prescribes, and the one the
`row[i] = &jacobian[i * 3]` pointers of the source spell out). -/
def jacobianMatrix {α : Type} (jacobian : Nat → α) : Matrix (Fin 9) (Fin 3) α :=
  Matrix.of fun i j => jacobian (i.val * 3 + j.val)

/-- The skew-symmetric generator `[delta]x`, the matrix with `[delta]x v = delta x v`. -/
def crossMatrix {α : Type} [LinearOrderedField α] (d : Vec3 α) : Mat3 α :=
  !![0, -d 2, d 1;
     d 2, 0, -d 0;
     -d 1, d 0, 0]

/-- Row-major flattening of a 3x3 matrix: entry `(i, j)` goes to position `3 * i + j`. -/
def flattenRowMajor {α : Type} (M : Mat3 α) : Fin 9 → α :=
  fun k => M ⟨k.val / 3, Nat.div_lt_of_lt_mul (by omega)⟩ ⟨k.val % 3, Nat.mod_lt _ (by decide)⟩

/-- Column-major flattening of a 3x3 matrix: entry `(i, j)` goes to position `i + 3 * j`. -/
def flattenColMajor {α : Type} (M : Mat3 α) : Fin 9 → α :=
  fun k => M ⟨k.val % 3, Nat.mod_lt _ (by decide)⟩ ⟨k.val / 3, Nat.div_lt_of_lt_mul (by omega)⟩

/-- A rotation matrix: orthonormal with determinant `+1`. -/
def IsRotation {α : Type} [LinearOrderedField α] (M : Mat3 α) : Prop :=
  Mᵀ * M = 1 ∧ M.det = 1

/-- The constant 9x3 pattern written by `ComputeJacobian`: entry `(i, j)`. -/
def jacobianPattern {α : Type} [LinearOrderedField α] : Matrix (Fin 9) (Fin 3) α :=
  Matrix.of fun i j =>
    match i.val, j.val with
    | 1, 2 => 1
    | 2, 1 => -1
    | 3, 2 => -1
    | 5, 0 => 1
    | 6, 1 => 1
    | 7, 0 => -1
    | _, _ => 0

/-! ## The camera model used by the program

The class `camera::EquiDistantRadialK3`, `geometry::Pose3` and
`feature::PointFeature` are not part of the sources at hand. The camera object is
the record of its constructor arguments; its methods are the fields of
`CameraModel`, taken as parameters. -/

/-- Constructor arguments of `camera::EquiDistantRadialK3`, in order. -/
structure EquiDistantRadialK3 (α : Type) where
  /-- Image width. -/
  w : α
  /-- Image height. -/
  h : α
  /-- Focal-like scalar (third argument; the field of view in `main`). -/
  focal : α
  /-- Principal point, first coordinate. -/
  cx : α
  /-- Principal point, second coordinate. -/
  cy : α
  /-- Image circle radius. -/
  radius : α
  /-- First distortion coefficient. -/
  k1 : α
  /-- Second distortion coefficient. -/
  k2 : α
  /-- Third distortion coefficient. -/
  k3 : α

/-- A pose `geometry::Pose3(rotation, center)`. -/
structure Pose3 (α : Type) where
  /-- Rotation part. -/
  rotation : Mat3 α
  /-- Centre part. -/
  center : Vec3 α

/-- Modelled from the spec: `Pose3::operator()` is missing from the sources; a pose
maps a point to `rotation * (point - center)`, which for the zero centre used
throughout the program is the rotated point. -/
def Pose3.apply {α : Type} [LinearOrderedField α] (T : Pose3 α) (pt : Vec3 α) : Vec3 α :=
  T.rotation.mulVec (pt - T.center)

/-- A 2D observation `feature::PointFeature(x, y)`. -/
structure PointFeature (α : Type) where
  /-- First pixel coordinate. -/
  x : α
  /-- Second pixel coordinate. -/
  y : α

/-- The methods of `camera::EquiDistantRadialK3` called by the program, as functions
of the camera object. `worldToImage` is the projection of a ray given in the frame
of the camera. -/
structure CameraModel (α : Type) where
  /-- Pixel to normalised camera plane. -/
  ima2cam : EquiDistantRadialK3 α → Vec2 α → Vec2 α
  /-- Inverse of the radial distortion. -/
  remove_disto : EquiDistantRadialK3 α → Vec2 α → Vec2 α
  /-- Normalised point to unit direction. -/
  toUnitSphere : EquiDistantRadialK3 α → Vec2 α → Vec3 α
  /-- Ray in the camera frame to pixel, with or without distortion. -/
  worldToImage : EquiDistantRadialK3 α → Vec3 α → Bool → Vec2 α
  /-- Visibility of a ray given in the camera frame. -/
  isVisibleRay : EquiDistantRadialK3 α → Vec3 α → Bool
  /-- Visibility of a pixel. -/
  isVisible : EquiDistantRadialK3 α → Vec2 α → Bool
  /-- Derivative of `project` with respect to the point. -/
  getDerivativeProjectWrtPoint :
    EquiDistantRadialK3 α → Pose3 α → Vec3 α → Matrix (Fin 2) (Fin 3) α
  /-- Derivative of `toUnitSphere` with respect to the point. -/
  getDerivativetoUnitSphereWrtPoint :
    EquiDistantRadialK3 α → Vec2 α → Matrix (Fin 3) (Fin 2) α
  /-- Derivative of `remove_disto` with respect to the point. -/
  getDerivativeRemoveDistoWrtPt : EquiDistantRadialK3 α → Vec2 α → Matrix (Fin 2) (Fin 2) α
  /-- Derivative of `ima2cam` with respect to the principal point. -/
  getDerivativeIma2CamWrtPrincipalPoint : EquiDistantRadialK3 α → Matrix (Fin 2) (Fin 2) α
  /-- Derivative of `remove_disto` with respect to the distortion coefficients. -/
  getDerivativeRemoveDistoWrtDisto :
    EquiDistantRadialK3 α → Vec2 α → Matrix (Fin 2) (Fin 3) α
  /-- Derivative of `project` with respect to the distortion coefficients. -/
  getDerivativeProjectWrtDisto :
    EquiDistantRadialK3 α → Pose3 α → Vec3 α → Matrix (Fin 2) (Fin 3) α
  /-- Derivative of `project` with respect to the principal point. -/
  getDerivativeProjectWrtPrincipalPoint :
    EquiDistantRadialK3 α → Pose3 α → Vec3 α → Matrix (Fin 2) (Fin 2) α

/-- Modelled from the spec: `EquiDistantRadialK3::project(pose, pt, applyDistortion)`
is missing from the sources; it applies the pose to the point and projects the
transformed ray through the camera model. -/
def CameraModel.project {α : Type} [LinearOrderedField α] (cam : CameraModel α)
    (intrinsic : EquiDistantRadialK3 α) (pose : Pose3 α) (pt : Vec3 α)
    (applyDistortion : Bool) : Vec2 α :=
  cam.worldToImage intrinsic (pose.apply pt) applyDistortion

/-! ## `Cost` -/

/-- Assignment of a `2 x n` matrix through `Eigen::Map<Eigen::Matrix<double, 2, n>>`,
whose storage order is Eigen's default, column-major: entry `(r, c)` goes to offset
`c * 2 + r`; the rest of the memory is untouched. -/
def storeColMajor2 {α : Type} {n : Nat} (M : Matrix (Fin 2) (Fin n) α) (p : Nat → α) :
    Nat → α :=
  fun k => if h : k < 2 * n then
    M ⟨k % 2, Nat.mod_lt k (by decide)⟩ ⟨k / 2, Nat.div_lt_of_lt_mul h⟩
  else p k

/-- Assignment `J = M` through the pointer `jacobians[slot]`, guarded by
`if (jacobians[slot] != nullptr)`. -/
def writeJacobian {α : Type} {n : Nat} (slot : Nat) (M : Matrix (Fin 2) (Fin n) α)
    (jacobians : Nat → Option (Nat → α)) : Nat → Option (Nat → α) :=
  match jacobians slot with
  | some J => Function.update jacobians slot (some (storeColMajor2 M J))
  | none => jacobians

namespace Cost

/-- Number of residuals declared by `ceres::SizedCostFunction<2, 9, 9, 1, 2, 3, 1, 2, 3>`. -/
def num_residuals : Nat := 2

/-- Parameter block sizes declared by
`ceres::SizedCostFunction<2, 9, 9, 1, 2, 3, 1, 2, 3>`. -/
def parameter_block_sizes : List Nat := [9, 9, 1, 2, 3, 1, 2, 3]

/-- `Cost(fi, fj).Evaluate(parameters, residuals, jacobians)`: returns the boolean
result, the new contents of `residuals` and the new contents of the Jacobian
arrays. `parameters k` is the memory behind `parameters[k]`; `jacobians` is `none`
for a null array, and `jacobians k` is `none` for a null `jacobians[k]`. -/
def Evaluate {α : Type} [LinearOrderedField α] (cam : CameraModel α)
    (_fi _fj : PointFeature α) (parameters : Nat → Nat → α) (residuals : Nat → α)
    (jacobians : Option (Nat → Option (Nat → α))) :
    Bool × (Nat → α) × Option (Nat → Option (Nat → α)) :=
  let w : α := 3840
  let h : α := 5760
  let pt_i : Vec2 α := ![_fi.x, _fi.y]
  let pt_j : Vec2 α := ![_fj.x, _fj.y]
  let parameter_Ri := parameters 0
  let parameter_Rj := parameters 1
  let parameter_focal_i := parameters 2
  let parameter_center_i := parameters 3
  let parameter_disto_i := parameters 4
  let parameter_focal_j := parameters 5
  let parameter_center_j := parameters 6
  let parameter_disto_j := parameters 7
  let intrinsic_i : EquiDistantRadialK3 α :=
    ⟨w, h, parameter_focal_i 0, parameter_center_i 0, parameter_center_i 1, 1980,
      parameter_disto_i 0, parameter_disto_i 1, parameter_disto_i 2⟩
  let intrinsic_j : EquiDistantRadialK3 α :=
    ⟨w, h, parameter_focal_j 0, parameter_center_j 0, parameter_center_j 1, 1980,
      parameter_disto_j 0, parameter_disto_j 1, parameter_disto_j 2⟩
  let iRo := mapRowMajor3 parameter_Ri
  let jRo := mapRowMajor3 parameter_Rj
  let R : Mat3 α := jRo * iRoᵀ
  let pt_i_cam := cam.ima2cam intrinsic_i pt_i
  let pt_i_undist := cam.remove_disto intrinsic_i pt_i_cam
  let ptI := cam.toUnitSphere intrinsic_i pt_i_undist
  let T : Pose3 α := ⟨R, ![0, 0, 0]⟩
  let pt_j_est := cam.project intrinsic_j T ptI true
  let residuals1 := Function.update residuals 0 (pt_j_est 0 - pt_j 0)
  let residuals2 := Function.update residuals1 1 (pt_j_est 1 - pt_j 1)
  match jacobians with
  | none => (true, residuals2, none)
  | some jac =>
    -- `if (jacobians[2] != nullptr)`: a map is created, nothing is assigned
    let jac3 := writeJacobian 3
      (cam.getDerivativeProjectWrtPoint intrinsic_j T ptI
        * cam.getDerivativetoUnitSphereWrtPoint intrinsic_i pt_i_undist
        * cam.getDerivativeRemoveDistoWrtPt intrinsic_i pt_i_cam
        * cam.getDerivativeIma2CamWrtPrincipalPoint intrinsic_i) jac
    let jac4 := writeJacobian 4
      (cam.getDerivativeProjectWrtPoint intrinsic_j T ptI
        * cam.getDerivativetoUnitSphereWrtPoint intrinsic_i pt_i_undist
        * cam.getDerivativeRemoveDistoWrtDisto intrinsic_i pt_i_cam) jac3
    let jac7 := writeJacobian 7 (cam.getDerivativeProjectWrtDisto intrinsic_j T ptI) jac4
    let jac6 := writeJacobian 6
      (cam.getDerivativeProjectWrtPrincipalPoint intrinsic_j T ptI) jac7
    (true, residuals2, some jac6)

end Cost

/-! ## `main`: features, correspondences and the optimisation problem -/

/-- A `std::map` is the list of its entries in increasing key order; `lt` is the
strict order of the keys. Insertion or assignment `m[k] = v`. -/
def mapInsert {κ ν : Type} (lt : κ → κ → Bool) (k : κ) (v : ν) :
    List (κ × ν) → List (κ × ν)
  | [] => [(k, v)]
  | (k1, v1) :: rest =>
    if lt k k1 then (k, v) :: (k1, v1) :: rest
    else if lt k1 k then (k1, v1) :: mapInsert lt k v rest
    else (k, v) :: rest

/-- Lookup `m.find(k)` in a `std::map`: the entry whose key is equivalent to `k`. -/
def mapFind {κ ν : Type} (lt : κ → κ → Bool) (k : κ) : List (κ × ν) → Option ν
  | [] => none
  | (k1, v1) :: rest => if !lt k k1 && !lt k1 k then some v1 else mapFind lt k rest

/-- Order of `int` keys. -/
def intLt (a b : Nat) : Bool := decide (a < b)

/-- Order of `std::pair<int, int>` keys: lexicographic. -/
def pairLt (a b : Nat × Nat) : Bool :=
  decide (a.1 < b.1) || (!decide (b.1 < a.1) && decide (a.2 < b.2))

/-- A match `matching::IndMatch` between feature `_i` of the first view and feature
`_j` of the second. -/
structure IndMatch where
  /-- Feature id in the first view. -/
  _i : Nat
  /-- Feature id in the second view. -/
  _j : Nat
  /-- Distance ratio (always `0.4` here). -/
  _distanceRatio : ℚ
deriving DecidableEq

/-- The sample points of `main`: `180 x 360` directions on the unit sphere. -/
def generatePoints {α : Type} [LinearOrderedField α] (sin cos : α → α) (pi : α) :
    List (Vec3 α) :=
  (List.range 180).foldl (fun points ith =>
    (List.range 360).foldl (fun points jphi =>
      let theta := (ith : α) * pi / 180
      let phi := (jphi : α) * pi / 180
      let Px := cos theta * sin phi
      let Py := sin theta
      let Pz := cos theta * cos phi
      points ++ [![Px, Py, Pz]]) points) []

/-- Body of the loop over the sample points for one view (`index` is the position
of the first remaining point): returns `projected` and `featuresForView`. -/
def projectPoints {α : Type} [LinearOrderedField α] (cam : CameraModel α)
    (intrinsic : EquiDistantRadialK3 α) (T : Pose3 α) :
    List (Vec3 α) → Nat → List (Nat × Nat) × List (PointFeature α) →
      List (Nat × Nat) × List (PointFeature α)
  | [], _, acc => acc
  | pt :: rest, index, (projected, featuresForView) =>
    let transformedRay := T.apply pt
    if !cam.isVisibleRay intrinsic transformedRay then
      projectPoints cam intrinsic T rest (index + 1) (projected, featuresForView)
    else
      let impt := cam.project intrinsic T pt true
      if !cam.isVisible intrinsic impt then
        projectPoints cam intrinsic T rest (index + 1) (projected, featuresForView)
      else
        let current_feature := featuresForView.length
        projectPoints cam intrinsic T rest (index + 1)
          (mapInsert intLt index current_feature projected,
            featuresForView ++ [⟨impt 0, impt 1⟩])

/-- The maps `projections` and `features` of `main`. -/
structure Views (α : Type) where
  /-- Per view, the map from sample index to feature id. -/
  projections : List (Nat × List (Nat × Nat))
  /-- Per view, the list of observed features. -/
  features : List (Nat × List (PointFeature α))

/-- The loop `for (int idview = 0; idview < 3; idview++)` of `main`. -/
def generateViews {α : Type} [LinearOrderedField α] (cam : CameraModel α)
    (intrinsics : Nat → EquiDistantRadialK3 α) (r : Nat → Mat3 α) (points : List (Vec3 α)) :
    Views α :=
  (List.range 3).foldl (fun views idview =>
    let T : Pose3 α := ⟨r idview, 0⟩
    let result := projectPoints cam (intrinsics idview) T points 0 ([], [])
    { projections := mapInsert intLt idview result.1 views.projections
      features := mapInsert intLt idview result.2 views.features }) ⟨[], []⟩

/-- The innermost loop of the construction of `pwMatches`: the matches between two
views, from their `projected` maps. -/
def matchViews (first second : List (Nat × Nat)) : List IndMatch :=
  first.foldl (fun matchList item =>
    match mapFind intLt item.1 second with
    | none => matchList
    | some partner => matchList ++ [⟨item.2, partner, 2 / 5⟩]) []

/-- The two outer loops of the construction of `pwMatches`: every entry `it` of
`projections` against every later entry `next`. -/
def buildMatches :
    List (Nat × List (Nat × Nat)) → List ((Nat × Nat) × List IndMatch) →
      List ((Nat × Nat) × List IndMatch)
  | [], pwMatches => pwMatches
  | it :: later, pwMatches =>
    buildMatches later
      (later.foldl (fun pw next =>
        mapInsert pairLt (it.1, next.1) (matchViews it.2 next.2) pw) pwMatches)

/-- The map `pwMatches` of `main`. -/
def pwMatchesOf {α : Type} [LinearOrderedField α] (cam : CameraModel α)
    (intrinsics : Nat → EquiDistantRadialK3 α) (r : Nat → Mat3 α) (points : List (Vec3 α)) :
    List ((Nat × Nat) × List IndMatch) :=
  buildMatches (generateViews cam intrinsics r points).projections []

/-- The pointers handed to the solver: `r[view].data()` and
`params[view].data() + offset`. -/
inductive BlockPtr where
  | r (view : Nat)
  | params (view : Nat) (offset : Nat)
deriving DecidableEq

/-- A parameter block known to `ceres::Problem`. -/
structure ParameterBlock where
  /-- Address of the block. -/
  ptr : BlockPtr
  /-- Declared size. -/
  size : Nat
  /-- Whether a `SO3Parameterization` was attached. -/
  parameterized : Bool
  /-- Whether the block was set constant. -/
  constant : Bool
deriving DecidableEq

/-- A residual block known to `ceres::Problem`: the `Cost(fi, fj)` object and the
parameter blocks it is wired to, in order. -/
structure ResidualBlock (α : Type) where
  /-- First constructor argument of the cost. -/
  fi : PointFeature α
  /-- Second constructor argument of the cost. -/
  fj : PointFeature α
  /-- The parameter block pointers, slot by slot. -/
  blocks : List BlockPtr

/-- The part of `ceres::Problem` the program builds. -/
structure Problem (α : Type) where
  /-- Declared parameter blocks, in declaration order. -/
  parameterBlocks : List ParameterBlock
  /-- Attached residual blocks, in attachment order. -/
  residualBlocks : List (ResidualBlock α)

namespace Problem

/-- `problem.AddParameterBlock(values, size)` and
`problem.AddParameterBlock(values, size, new SO3Parameterization())`. -/
def AddParameterBlock {α : Type} (problem : Problem α) (values : BlockPtr) (size : Nat)
    (parameterized : Bool) : Problem α :=
  { problem with
    parameterBlocks := problem.parameterBlocks ++ [⟨values, size, parameterized, false⟩] }

/-- `problem.SetParameterBlockConstant(values)`. -/
def SetParameterBlockConstant {α : Type} (problem : Problem α) (values : BlockPtr) :
    Problem α :=
  { problem with
    parameterBlocks := problem.parameterBlocks.map fun b =>
      if b.ptr = values then { b with constant := true } else b }

/-- `problem.AddResidualBlock(new Cost(fi, fj), nullptr, x0, ..., x7)`. -/
def AddResidualBlock {α : Type} (problem : Problem α) (fi fj : PointFeature α)
    (blocks : List BlockPtr) : Problem α :=
  { problem with residualBlocks := problem.residualBlocks ++ [⟨fi, fj, blocks⟩] }

end Problem

/-- Number of entries of the vector returned by `getParams()` (the method is
missing from the sources; `main` reads the entries `0..5` back at its end). -/
def paramsSize : Nat := 6

/-- The declarations `AddParameterBlock` and `SetParameterBlockConstant` of `main`,
in program order. -/
def declareBlocks {α : Type} (problem : Problem α) : Problem α :=
  let p := problem.AddParameterBlock (.params 0 0) 1 false
  let p := p.AddParameterBlock (.params 0 1) 2 false
  let p := p.AddParameterBlock (.params 0 3) 3 false
  let p := p.AddParameterBlock (.params 1 0) 1 false
  let p := p.AddParameterBlock (.params 1 1) 2 false
  let p := p.AddParameterBlock (.params 1 3) 3 false
  let p := p.AddParameterBlock (.params 2 0) 1 false
  let p := p.AddParameterBlock (.params 2 1) 2 false
  let p := p.AddParameterBlock (.params 2 3) 3 false
  let p := p.AddParameterBlock (.r 0) 9 true
  let p := p.AddParameterBlock (.r 1) 9 true
  let p := p.AddParameterBlock (.r 2) 9 true
  let p := p.SetParameterBlockConstant (.params 0 0)
  let p := p.SetParameterBlockConstant (.params 0 1)
  let p := p.SetParameterBlockConstant (.params 1 0)
  let p := p.SetParameterBlockConstant (.params 1 1)
  let p := p.SetParameterBlockConstant (.params 2 0)
  let p := p.SetParameterBlockConstant (.params 2 1)
  let p := p.SetParameterBlockConstant (.r 0)
  let p := p.SetParameterBlockConstant (.r 1)
  let p := p.SetParameterBlockConstant (.r 2)
  p

/-- The lookup `features[view][id]`: `none` when `id` is not a valid position (the
C++ access would be out of bounds). -/
def featureAt {α : Type} (features : List (Nat × List (PointFeature α))) (view id : Nat) :
    Option (PointFeature α) :=
  ((mapFind intLt view features).getD [])[id]?

/-- Body of `for (auto match : matches.second)`: the two `AddResidualBlock` calls. -/
def addMatchResiduals {α : Type} (features : List (Nat × List (PointFeature α)))
    (idviews : Nat × Nat) (problem : Problem α) (aMatch : IndMatch) : Option (Problem α) := do
  let fi ← featureAt features idviews.1 aMatch._i
  let fj ← featureAt features idviews.2 aMatch._j
  let p := problem.AddResidualBlock fi fj
    [.r idviews.1, .r idviews.2,
      .params idviews.1 0, .params idviews.1 1, .params idviews.1 3,
      .params idviews.2 0, .params idviews.2 1, .params idviews.2 3]
  let p := p.AddResidualBlock fj fi
    [.r idviews.2, .r idviews.1,
      .params idviews.2 0, .params idviews.2 1, .params idviews.2 3,
      .params idviews.1 0, .params idviews.1 1, .params idviews.1 3]
  pure p

/-- The loop `for (auto matches : pwMatches)` of `main`. -/
def addResiduals {α : Type} (features : List (Nat × List (PointFeature α)))
    (pwMatches : List ((Nat × Nat) × List IndMatch)) (problem : Problem α) :
    Option (Problem α) :=
  pwMatches.foldlM (fun p entry =>
    entry.2.foldlM (addMatchResiduals features entry.1) p) problem

/-- The problem built by `main` from the camera objects, the rotations and the
sample points, up to the call of the solver. -/
def buildProblem {α : Type} [LinearOrderedField α] (cam : CameraModel α)
    (intrinsics : Nat → EquiDistantRadialK3 α) (r : Nat → Mat3 α) (points : List (Vec3 α)) :
    Option (Problem α) :=
  let views := generateViews cam intrinsics r points
  let pwMatches := buildMatches views.projections []
  addResiduals views.features pwMatches (declareBlocks ⟨[], []⟩)

/-- The camera objects of `main`: the same intrinsics for the three views. -/
def mainIntrinsics {α : Type} [LinearOrderedField α] (pi : α) (_view : Nat) :
    EquiDistantRadialK3 α :=
  ⟨3840, 5760, 176 * pi / 180, 1920 + 32, 2880 - 56, 1980, 4 / 1000, 0, 0⟩

/-- The rotations of `main`: 0, a quarter and a half turn about the Y axis. -/
def mainRotations {α : Type} [LinearOrderedField α] (sin cos : α → α) (pi : α)
    (view : Nat) : Mat3 α :=
  toRotationMatrix sin cos ((view : α) / 4 * 2 * pi) ![0, 1, 0]

/-- The problem `main` hands to the solver. -/
def mainProblem {α : Type} [LinearOrderedField α] (cam : CameraModel α)
    (sin cos : α → α) (pi : α) : Option (Problem α) :=
  buildProblem cam (mainIntrinsics pi) (mainRotations sin cos pi) (generatePoints sin cos pi)

/-! ## Reference definitions for the statements about `Cost` -/

/-- The camera object `Cost::Evaluate` builds from a focal block, a centre block and
a distortion block. -/
def cameraOfBlocks {α : Type} [LinearOrderedField α] (focal center disto : Nat → α) :
    EquiDistantRadialK3 α :=
  ⟨3840, 5760, focal 0, center 0, center 1, 1980, disto 0, disto 1, disto 2⟩

/-- The residual as the specification words it: the source observation is taken
back to a unit direction through the inverse chain of the source camera, rotated by
`R = R_j * R_i^T`, projected with distortion through the target camera, and the
observed target pixel is subtracted (predicted minus observed). -/
def predictedMinusObserved {α : Type} [LinearOrderedField α] (cam : CameraModel α)
    (fi fj : PointFeature α) (Ri Rj : Mat3 α) (camera_i camera_j : EquiDistantRadialK3 α) :
    Vec2 α :=
  let R := Rj * Riᵀ
  let direction :=
    cam.toUnitSphere camera_i (cam.remove_disto camera_i (cam.ima2cam camera_i ![fi.x, fi.y]))
  cam.worldToImage camera_j (R.mulVec direction) true - ![fj.x, fj.y]

/-- The eight parameter blocks of one residual, slot by slot. -/
def parameterSlots {α : Type} (Ri Rj focal_i center_i disto_i focal_j center_j disto_j : Nat → α) :
    Nat → Nat → α
  | 0 => Ri
  | 1 => Rj
  | 2 => focal_i
  | 3 => center_i
  | 4 => disto_i
  | 5 => focal_j
  | 6 => center_j
  | _ => disto_j

/-- The feature `main` records for a sample point seen by a view:
`PointFeature(impt.x(), impt.y())` with `impt = project(T, pt, true)` and
`T = Pose3(r, 0)`. -/
def observe {α : Type} [LinearOrderedField α] (cam : CameraModel α)
    (intrinsic : EquiDistantRadialK3 α) (rotation : Mat3 α) (pt : Vec3 α) : PointFeature α :=
  ⟨cam.project intrinsic ⟨rotation, 0⟩ pt true 0, cam.project intrinsic ⟨rotation, 0⟩ pt true 1⟩

/-- The two visibility tests of `main` for one sample point in one view. -/
def passesVisibility {α : Type} [LinearOrderedField α] (cam : CameraModel α)
    (intrinsic : EquiDistantRadialK3 α) (rotation : Mat3 α) (pt : Vec3 α) : Bool :=
  cam.isVisibleRay intrinsic ((⟨rotation, 0⟩ : Pose3 α).apply pt)
    && cam.isVisible intrinsic (cam.project intrinsic ⟨rotation, 0⟩ pt true)

/-- The entries the loop over the sample points adds to `projected`: the points
that pass the tests, each with its position and the number of passing points
before it (`index` is the position of the first point, `next` the next free id). -/
def assignIds {β : Type} (passes : β → Bool) : List β → Nat → Nat → List (Nat × Nat)
  | [], _, _ => []
  | pt :: rest, index, next =>
    if passes pt then (index, next) :: assignIds passes rest (index + 1) (next + 1)
    else assignIds passes rest (index + 1) next

/-- The content of `projections[view]` in closed form. -/
def projectedOf {α : Type} [LinearOrderedField α] (cam : CameraModel α)
    (intrinsics : Nat → EquiDistantRadialK3 α) (r : Nat → Mat3 α) (points : List (Vec3 α))
    (view : Nat) : List (Nat × Nat) :=
  assignIds (passesVisibility cam (intrinsics view) (r view)) points 0 0

/-- The content of `features[view]` in closed form: the observations of the sample
points that pass the visibility tests, in sample order. -/
def featuresOf {α : Type} [LinearOrderedField α] (cam : CameraModel α)
    (intrinsics : Nat → EquiDistantRadialK3 α) (r : Nat → Mat3 α) (points : List (Vec3 α))
    (view : Nat) : List (PointFeature α) :=
  (points.filter (passesVisibility cam (intrinsics view) (r view))).map
    (observe cam (intrinsics view) (r view))

/-- The feature read by `features[view][id]`, with `(0, 0)` standing for an access
out of bounds. -/
def featureOr {α : Type} [LinearOrderedField α] (features : List (Nat × List (PointFeature α)))
    (view id : Nat) : PointFeature α :=
  (featureAt features view id).getD ⟨0, 0⟩

/-- The two residual blocks the specification asks for one match between views
`i = idviews.1` and `j = idviews.2`: `Cost(fi, fj)` wired to
`(R_i, R_j, focal_i, center_i, disto_i, focal_j, center_j, disto_j)` and `Cost(fj, fi)`
wired to the same blocks with the roles of `i` and `j` swapped. -/
def residualPair {α : Type} (fi fj : PointFeature α) (idviews : Nat × Nat) :
    List (ResidualBlock α) :=
  [⟨fi, fj, [.r idviews.1, .r idviews.2,
      .params idviews.1 0, .params idviews.1 1, .params idviews.1 3,
      .params idviews.2 0, .params idviews.2 1, .params idviews.2 3]⟩,
   ⟨fj, fi, [.r idviews.2, .r idviews.1,
      .params idviews.2 0, .params idviews.2 1, .params idviews.2 3,
      .params idviews.1 0, .params idviews.1 1, .params idviews.1 3]⟩]

/-- The residual blocks expected for all matches of all view pairs, in order. -/
def expectedResiduals {α : Type} [LinearOrderedField α]
    (features : List (Nat × List (PointFeature α)))
    (pwMatches : List ((Nat × Nat) × List IndMatch)) : List (ResidualBlock α) :=
  pwMatches.flatMap fun entry =>
    entry.2.flatMap fun m =>
      residualPair (featureOr features entry.1.1 m._i) (featureOr features entry.1.2 m._j)
        entry.1

/-- The size with which a pointer was declared among the parameter blocks of the
problem, if it was. -/
def declaredSize (parameterBlocks : List ParameterBlock) (ptr : BlockPtr) : Option Nat :=
  (parameterBlocks.find? fun pb => decide (pb.ptr = ptr)).map fun pb => pb.size

/-- The pointers of the parameter blocks that were not set constant, in declaration
order. -/
def freeBlocks (parameterBlocks : List ParameterBlock) : List BlockPtr :=
  (parameterBlocks.filter fun pb => !pb.constant).map fun pb => pb.ptr

/-- Whether a declared block is a slice of `params[view]` that contains `index`. -/
def coversIndex (view index : Nat) (pb : ParameterBlock) : Bool :=
  match pb.ptr with
  | .params v offset => decide (v = view) && decide (offset ≤ index)
      && decide (index < offset + pb.size)
  | .r _ => false

/-- The slices `(offset, size)` of `params[view]` declared to the problem, in
declaration order. -/
def intrinsicSlices (parameterBlocks : List ParameterBlock) (view : Nat) : List (Nat × Nat) :=
  parameterBlocks.filterMap fun pb =>
    match pb.ptr with
    | .params v offset => if v = view then some (offset, pb.size) else none
    | .r _ => none

/-- The declarations `(size, parameterized)` made for the pointer `r[view].data()`. -/
def rotationDeclarations (parameterBlocks : List ParameterBlock) (view : Nat) :
    List (Nat × Bool) :=
  (parameterBlocks.filter fun pb => decide (pb.ptr = .r view)).map fun pb =>
    (pb.size, pb.parameterized)

/-! ## A small camera for concrete evaluations -/

/-- An orthographic stand-in for the camera model over the rationals: a ray
`(X, Y, Z)` is imaged at `(X + cx, Y + cy)`; a ray is visible when `Z >= 0`, a pixel
when it lies within `radius` of the principal point in both coordinates. The
derivatives are those of this projection. -/
def sampleCamera : CameraModel ℚ where
  ima2cam c q := ![q 0 - c.cx, q 1 - c.cy]
  remove_disto _ q := q
  toUnitSphere _ q := ![q 0, q 1, 0]
  worldToImage c X _ := ![X 0 + c.cx, X 1 + c.cy]
  isVisibleRay _ X := decide (0 ≤ X 2)
  isVisible c q := decide (|q 0 - c.cx| ≤ c.radius) && decide (|q 1 - c.cy| ≤ c.radius)
  getDerivativeProjectWrtPoint _ T _ :=
    (!![1, 0, 0; 0, 1, 0] : Matrix (Fin 2) (Fin 3) ℚ) * T.rotation
  getDerivativetoUnitSphereWrtPoint _ _ := !![1, 0; 0, 1; 0, 0]
  getDerivativeRemoveDistoWrtPt _ _ := 1
  getDerivativeIma2CamWrtPrincipalPoint _ := -1
  getDerivativeRemoveDistoWrtDisto _ _ := 0
  getDerivativeProjectWrtDisto _ _ _ := 0
  getDerivativeProjectWrtPrincipalPoint _ _ _ := 1

/-- The identity rotation as a row-major block. -/
def identityBlock : Nat → ℚ := fun k => if k = 0 ∨ k = 4 ∨ k = 8 then 1 else 0

/-- A quarter turn about the third axis as a row-major block. -/
def quarterTurnBlock : Nat → ℚ := fun k =>
  if k = 1 then -1 else if k = 3 ∨ k = 8 then 1 else 0

/-- Intrinsics of the concrete evaluations: principal point `(0, 0)`, radius 10. -/
def sampleIntrinsics (_view : Nat) : EquiDistantRadialK3 ℚ :=
  ⟨0, 0, 1, 0, 0, 10, 0, 0, 0⟩

/-- Rotations of the concrete evaluations: the identity for view 0, a quarter turn
about the second axis for the other views. -/
def sampleRotations (view : Nat) : Mat3 ℚ :=
  if view = 0 then 1 else !![0, 0, 1; 0, 1, 0; -1, 0, 0]

/-- Sample points of the concrete evaluations. -/
def samplePoints : List (Vec3 ℚ) := [![0, 0, 1], ![1, 0, 0], ![-1, 0, 1]]

/-! ## Reference definitions for the composition of retractions -/

/-- The rotation increment `Exp(delta)` that `Plus` builds from the tangent vector
`delta`: the axis-angle rotation of angle `|delta|` about `delta / |delta|`. -/
def expUpdate {α : Type} [LinearOrderedField α] (sqrt sin cos : α → α) (delta : Nat → α) :
    Mat3 α :=
  toRotationMatrix sin cos (norm sqrt ![delta 0, delta 1, delta 2])
    (normalize sqrt ![delta 0, delta 1, delta 2])

/-! ## The Jacobian matrices computed by `Cost::Evaluate` -/

namespace Cost

/-- The pose `T` of `Evaluate`: the relative rotation `jRo * iRo^T`, zero centre. -/
def relativePose {α : Type} [LinearOrderedField α] (parameters : Nat → Nat → α) : Pose3 α :=
  ⟨mapRowMajor3 (parameters 1) * (mapRowMajor3 (parameters 0))ᵀ, ![0, 0, 0]⟩

/-- The camera `intrinsic_i` of `Evaluate`. -/
def intrinsicI {α : Type} [LinearOrderedField α] (parameters : Nat → Nat → α) :
    EquiDistantRadialK3 α :=
  cameraOfBlocks (parameters 2) (parameters 3) (parameters 4)

/-- The camera `intrinsic_j` of `Evaluate`. -/
def intrinsicJ {α : Type} [LinearOrderedField α] (parameters : Nat → Nat → α) :
    EquiDistantRadialK3 α :=
  cameraOfBlocks (parameters 5) (parameters 6) (parameters 7)

/-- The point `pt_i_cam` of `Evaluate`. -/
def ptICam {α : Type} [LinearOrderedField α] (cam : CameraModel α) (fi : PointFeature α)
    (parameters : Nat → Nat → α) : Vec2 α :=
  cam.ima2cam (intrinsicI parameters) ![fi.x, fi.y]

/-- The point `pt_i_undist` of `Evaluate`. -/
def ptIUndist {α : Type} [LinearOrderedField α] (cam : CameraModel α) (fi : PointFeature α)
    (parameters : Nat → Nat → α) : Vec2 α :=
  cam.remove_disto (intrinsicI parameters) (ptICam cam fi parameters)

/-- The direction `ptI` of `Evaluate`. -/
def ptISphere {α : Type} [LinearOrderedField α] (cam : CameraModel α) (fi : PointFeature α)
    (parameters : Nat → Nat → α) : Vec3 α :=
  cam.toUnitSphere (intrinsicI parameters) (ptIUndist cam fi parameters)

/-- The matrix assigned to `J` under `if (jacobians[3] != nullptr)`. -/
def jacobianSlot3 {α : Type} [LinearOrderedField α] (cam : CameraModel α)
    (fi : PointFeature α) (parameters : Nat → Nat → α) : Matrix (Fin 2) (Fin 2) α :=
  cam.getDerivativeProjectWrtPoint (intrinsicJ parameters) (relativePose parameters)
      (ptISphere cam fi parameters)
    * cam.getDerivativetoUnitSphereWrtPoint (intrinsicI parameters) (ptIUndist cam fi parameters)
    * cam.getDerivativeRemoveDistoWrtPt (intrinsicI parameters) (ptICam cam fi parameters)
    * cam.getDerivativeIma2CamWrtPrincipalPoint (intrinsicI parameters)

/-- The matrix assigned to `J` under `if (jacobians[4] != nullptr)`. -/
def jacobianSlot4 {α : Type} [LinearOrderedField α] (cam : CameraModel α)
    (fi : PointFeature α) (parameters : Nat → Nat → α) : Matrix (Fin 2) (Fin 3) α :=
  cam.getDerivativeProjectWrtPoint (intrinsicJ parameters) (relativePose parameters)
      (ptISphere cam fi parameters)
    * cam.getDerivativetoUnitSphereWrtPoint (intrinsicI parameters) (ptIUndist cam fi parameters)
    * cam.getDerivativeRemoveDistoWrtDisto (intrinsicI parameters) (ptICam cam fi parameters)

/-- The matrix assigned to `J` under `if (jacobians[7] != nullptr)`. -/
def jacobianSlot7 {α : Type} [LinearOrderedField α] (cam : CameraModel α)
    (fi : PointFeature α) (parameters : Nat → Nat → α) : Matrix (Fin 2) (Fin 3) α :=
  cam.getDerivativeProjectWrtDisto (intrinsicJ parameters) (relativePose parameters)
    (ptISphere cam fi parameters)

/-- The matrix assigned to `J` under `if (jacobians[6] != nullptr)`. -/
def jacobianSlot6 {α : Type} [LinearOrderedField α] (cam : CameraModel α)
    (fi : PointFeature α) (parameters : Nat → Nat → α) : Matrix (Fin 2) (Fin 2) α :=
  cam.getDerivativeProjectWrtPrincipalPoint (intrinsicJ parameters) (relativePose parameters)
    (ptISphere cam fi parameters)

end Cost

/-- The Jacobian arrays handed to `Evaluate` in the concrete evaluations: arrays
filled with `5` for the slots 0 and 3, null pointers elsewhere. -/
def sampleJacobians : Nat → Option (Nat → ℚ) :=
  fun k => if k = 0 ∨ k = 3 then some (fun _ => 5) else none

/-- The parameter blocks of the concrete evaluations: identity and quarter turn,
focal 1, principal points and distortion 0. -/
def sampleParameters : Nat → Nat → ℚ :=
  parameterSlots identityBlock quarterTurnBlock (fun _ => 1) (fun _ => 0) (fun _ => 0)
    (fun _ => 1) (fun _ => 0) (fun _ => 0)

/-! ## Properties of the Eigen primitives -/

theorem clearRow_apply {α : Type} [Zero α] (base n : Nat) (buf : Nat → α) (k : Nat) :
    (List.range n).foldl (fun b j => Function.update b (base + j) 0) buf k
      = if base ≤ k ∧ k < base + n then 0 else buf k := by
  induction n with
  | zero =>
    have h : ¬ (base ≤ k ∧ k < base + 0) := by omega
    rw [if_neg h]
    rfl
  | succ n ih =>
    rw [List.range_succ, List.foldl_append]
    simp only [List.foldl_cons, List.foldl_nil, Function.update_apply, ih]
    split_ifs <;> first | rfl | omega

theorem clearLoop_apply {α : Type} [Zero α] (m : Nat) (jacobian : Nat → α) (k : Nat) :
    (List.range m).foldl
      (fun buf i => (List.range 3).foldl (fun b j => Function.update b (i * 3 + j) 0) buf)
      jacobian k = if k < m * 3 then 0 else jacobian k := by
  induction m with
  | zero => simp
  | succ m ih =>
    rw [@List.range_succ m, List.foldl_append]
    simp only [List.foldl_cons, List.foldl_nil, clearRow_apply, ih]
    split_ifs <;> first | rfl | omega

theorem ComputeJacobian_snd {α : Type} [LinearOrderedField α] (x jacobian : Nat → α) (k : Nat) :
    (SO3Parameterization.ComputeJacobian x jacobian).2 k
      = if k = 21 then -1 else if k = 19 then 1 else if k = 15 then 1
        else if k = 11 then -1 else if k = 7 then -1 else if k = 5 then 1
        else if k < 27 then 0 else jacobian k := by
  simp only [SO3Parameterization.ComputeJacobian, Function.update_apply, clearLoop_apply]


theorem mapRowMajor3_storeRowMajor3 {α : Type} (M : Mat3 α) (p : Nat → α) :
    mapRowMajor3 (storeRowMajor3 M p) = M := by
  ext i j
  fin_cases i <;> fin_cases j <;> simp [mapRowMajor3, storeRowMajor3]

theorem storeRowMajor3_mapRowMajor3 {α : Type} (x p : Nat → α) :
    storeRowMajor3 (mapRowMajor3 x) p = fun k => if k < 9 then x k else p k := by
  funext k
  by_cases h : k < 9
  · simp only [storeRowMajor3, h, dif_pos, if_pos, mapRowMajor3, Matrix.of_apply]
    congr 1
    omega
  · simp [storeRowMajor3, h]

theorem toRotationMatrix_zero_axis {α : Type} [LinearOrderedField α] (sin cos : α → α)
    (angle : α) (hc : cos angle = 1) :
    toRotationMatrix sin cos angle ![0, 0, 0] = 1 := by
  ext i j
  fin_cases i <;> fin_cases j <;>
    simp [toRotationMatrix, hc, Matrix.vecHead, Matrix.vecTail]

theorem toRotationMatrix_transpose_mul {α : Type} [LinearOrderedField α] (sin cos : α → α)
    (angle : α) (axis : Vec3 α) (hsc : sin angle ^ 2 + cos angle ^ 2 = 1)
    (hn : squaredNorm axis = 1) :
    (toRotationMatrix sin cos angle axis)ᵀ * toRotationMatrix sin cos angle axis = 1 := by
  unfold squaredNorm at hn
  ext i j
  fin_cases i <;> fin_cases j <;>
    simp [toRotationMatrix, Matrix.mul_apply, Fin.sum_univ_three, Matrix.vecHead, Matrix.vecTail]
  · linear_combination (1 - axis 0 ^ 2) * hsc
      + (sin angle ^ 2 + axis 0 ^ 2 * (1 - cos angle) ^ 2) * hn
  · linear_combination axis 0 * axis 1 * ((1 - cos angle) ^ 2 * hn - hsc)
  · linear_combination axis 0 * axis 2 * ((1 - cos angle) ^ 2 * hn - hsc)
  · linear_combination axis 0 * axis 1 * ((1 - cos angle) ^ 2 * hn - hsc)
  · linear_combination (1 - axis 1 ^ 2) * hsc
      + (sin angle ^ 2 + axis 1 ^ 2 * (1 - cos angle) ^ 2) * hn
  · linear_combination axis 1 * axis 2 * ((1 - cos angle) ^ 2 * hn - hsc)
  · linear_combination axis 0 * axis 2 * ((1 - cos angle) ^ 2 * hn - hsc)
  · linear_combination axis 1 * axis 2 * ((1 - cos angle) ^ 2 * hn - hsc)
  · linear_combination (1 - axis 2 ^ 2) * hsc
      + (sin angle ^ 2 + axis 2 ^ 2 * (1 - cos angle) ^ 2) * hn

theorem toRotationMatrix_det {α : Type} [LinearOrderedField α] (sin cos : α → α)
    (angle : α) (axis : Vec3 α) (hsc : sin angle ^ 2 + cos angle ^ 2 = 1)
    (hn : squaredNorm axis = 1) :
    (toRotationMatrix sin cos angle axis).det = 1 := by
  unfold squaredNorm at hn
  rw [Matrix.det_fin_three]
  simp [toRotationMatrix, Matrix.vecHead, Matrix.vecTail]
  linear_combination hsc + ((cos angle ^ 2 + sin angle ^ 2) * (1 - cos angle)
    + sin angle ^ 2 * (1 + (1 - cos angle)
      * (axis 0 * axis 0 + axis 1 * axis 1 + axis 2 * axis 2 - 1))) * hn

theorem squaredNorm_nonneg {α : Type} [LinearOrderedField α] (v : Vec3 α) :
    0 ≤ squaredNorm v := by
  unfold squaredNorm
  nlinarith [mul_self_nonneg (v 0), mul_self_nonneg (v 1), mul_self_nonneg (v 2)]

theorem squaredNorm_normalize (v : Vec3 ℝ) (h : squaredNorm v > 0) :
    squaredNorm (normalize Real.sqrt v) = 1 := by
  have hs : Real.sqrt (squaredNorm v) * Real.sqrt (squaredNorm v) = squaredNorm v :=
    Real.mul_self_sqrt h.le
  have hne : Real.sqrt (squaredNorm v) ≠ 0 := by
    intro h0
    rw [h0] at hs
    linarith
  have key : squaredNorm (normalize Real.sqrt v)
      = squaredNorm v / (Real.sqrt (squaredNorm v) * Real.sqrt (squaredNorm v)) := by
    simp only [normalize, h, if_true]
    unfold squaredNorm
    field_simp
  rw [key, hs]
  exact div_self h.ne.symm

theorem eq_zero_of_squaredNorm_eq_zero {α : Type} [LinearOrderedField α] (d : Vec3 α)
    (hz : squaredNorm d = 0) : d = ![0, 0, 0] := by
  unfold squaredNorm at hz
  have h0 : d 0 = 0 := by
    nlinarith [mul_self_nonneg (d 0), mul_self_nonneg (d 1), mul_self_nonneg (d 2)]
  have h1 : d 1 = 0 := by
    nlinarith [mul_self_nonneg (d 0), mul_self_nonneg (d 1), mul_self_nonneg (d 2)]
  have h2 : d 2 = 0 := by
    nlinarith [mul_self_nonneg (d 0), mul_self_nonneg (d 1), mul_self_nonneg (d 2)]
  funext i
  fin_cases i <;> simp [h0, h1, h2]

/-- The increment built by `Plus` is a rotation matrix, whatever `delta` is. -/
theorem update_is_rotation (d : Vec3 ℝ) :
    (toRotationMatrix Real.sin Real.cos (norm Real.sqrt d) (normalize Real.sqrt d))ᵀ
        * toRotationMatrix Real.sin Real.cos (norm Real.sqrt d) (normalize Real.sqrt d) = 1
    ∧ (toRotationMatrix Real.sin Real.cos (norm Real.sqrt d) (normalize Real.sqrt d)).det
        = 1 := by
  by_cases h : squaredNorm d > 0
  · exact ⟨toRotationMatrix_transpose_mul _ _ _ _ (Real.sin_sq_add_cos_sq _)
        (squaredNorm_normalize d h),
      toRotationMatrix_det _ _ _ _ (Real.sin_sq_add_cos_sq _) (squaredNorm_normalize d h)⟩
  · have hz : squaredNorm d = 0 := le_antisymm (not_lt.mp h) (squaredNorm_nonneg d)
    have hnorm : normalize Real.sqrt d = ![0, 0, 0] := by
      simp only [normalize, h, if_false]
      exact eq_zero_of_squaredNorm_eq_zero d hz
    have hang : Real.cos (norm Real.sqrt d) = 1 := by
      simp [norm, hz]
    rw [hnorm, toRotationMatrix_zero_axis _ _ _ hang]
    simp

/-- One `Plus` step maps a rotation matrix to a rotation matrix. -/
theorem plus_step_rotation (x delta out : Nat → ℝ)
    (hR : (mapRowMajor3 x)ᵀ * mapRowMajor3 x = 1) (hdet : (mapRowMajor3 x).det = 1) :
    (mapRowMajor3 (SO3Parameterization.Plus Real.sqrt Real.sin Real.cos x delta out).2)ᵀ
        * mapRowMajor3 (SO3Parameterization.Plus Real.sqrt Real.sin Real.cos x delta out).2 = 1
    ∧ (mapRowMajor3 (SO3Parameterization.Plus Real.sqrt Real.sin Real.cos x delta out).2).det
        = 1 := by
  obtain ⟨hU, hUdet⟩ := update_is_rotation ![delta 0, delta 1, delta 2]
  simp only [SO3Parameterization.Plus, mapRowMajor3_storeRowMajor3]
  constructor
  · rw [Matrix.transpose_mul, Matrix.mul_assoc, ← Matrix.mul_assoc _ _ (mapRowMajor3 x), hU,
      Matrix.one_mul, hR]
  · rw [Matrix.det_mul, hUdet, hdet, one_mul]


/-! ## The rotation manifold: main statements -/

/-- C3: `Plus(R, delta)` with `delta = (0, 0, 0)` returns true and writes `R`
unchanged into the nine entries of `x_plus_delta`; the guard of the axis
normalisation is not taken (no division), the axis stays the zero vector and the
increment of angle `0` is the identity matrix. -/
theorem C3_plus_zero_delta (x delta x_plus_delta : Nat → ℝ)
    (h0 : delta 0 = 0) (h1 : delta 1 = 0) (h2 : delta 2 = 0) :
    SO3Parameterization.Plus Real.sqrt Real.sin Real.cos x delta x_plus_delta
        = (true, fun k => if k < 9 then x k else x_plus_delta k)
    ∧ ¬ (squaredNorm ![delta 0, delta 1, delta 2] > 0)
    ∧ normalize Real.sqrt ![delta 0, delta 1, delta 2] = ![0, 0, 0]
    ∧ norm Real.sqrt ![delta 0, delta 1, delta 2] = 0
    ∧ toRotationMatrix Real.sin Real.cos (norm Real.sqrt ![delta 0, delta 1, delta 2])
        (normalize Real.sqrt ![delta 0, delta 1, delta 2]) = 1 := by
  have hz : squaredNorm ![delta 0, delta 1, delta 2] = 0 := by
    simp [squaredNorm, h0, h1, h2]
  have hg : ¬ (squaredNorm ![delta 0, delta 1, delta 2] > 0) := by
    rw [hz]; exact lt_irrefl 0
  have hnorm : normalize Real.sqrt ![delta 0, delta 1, delta 2] = ![0, 0, 0] := by
    simp only [normalize, hg, if_false]
    exact eq_zero_of_squaredNorm_eq_zero _ hz
  have hang : norm Real.sqrt ![delta 0, delta 1, delta 2] = 0 := by
    simp [norm, hz]
  have hU : toRotationMatrix Real.sin Real.cos (norm Real.sqrt ![delta 0, delta 1, delta 2])
      (normalize Real.sqrt ![delta 0, delta 1, delta 2]) = 1 := by
    rw [hnorm]
    exact toRotationMatrix_zero_axis _ _ _ (by rw [hang]; exact Real.cos_zero)
  refine ⟨?_, hg, hnorm, hang, hU⟩
  simp only [SO3Parameterization.Plus, hU, Matrix.one_mul, storeRowMajor3_mapRowMajor3]

/-- C3 at a concrete block: entries `0, 1, ..., 8` and a zero update. -/
theorem C3_plus_zero_delta_witness :
    SO3Parameterization.Plus Real.sqrt Real.sin Real.cos
        (fun k => (k : ℝ)) (fun _ => 0) (fun _ => 7)
      = (true, fun k : Nat => if k < 9 then (k : ℝ) else 7) :=
  (C3_plus_zero_delta (fun k => (k : ℝ)) (fun _ => 0) (fun _ => 7) rfl rfl rfl).1

/-- C4: for an orthonormal `R` of determinant `+1` and any `delta`, the block
written by `Plus` is `Exp(delta) * R` and is again orthonormal of determinant `+1`;
hence any sequence of `Plus` calls started at a rotation ends at a rotation. -/
theorem C4_plus_preserves_rotation (x : Nat → ℝ) (hx : IsRotation (mapRowMajor3 x)) :
    (∀ delta out : Nat → ℝ,
      mapRowMajor3 (SO3Parameterization.Plus Real.sqrt Real.sin Real.cos x delta out).2
          = toRotationMatrix Real.sin Real.cos (norm Real.sqrt ![delta 0, delta 1, delta 2])
              (normalize Real.sqrt ![delta 0, delta 1, delta 2]) * mapRowMajor3 x
      ∧ IsRotation
          (mapRowMajor3 (SO3Parameterization.Plus Real.sqrt Real.sin Real.cos x delta out).2))
    ∧ ∀ steps : List ((Nat → ℝ) × (Nat → ℝ)),
      IsRotation (mapRowMajor3 (steps.foldl
        (fun cur s => (SO3Parameterization.Plus Real.sqrt Real.sin Real.cos cur s.1 s.2).2) x)) := by
  constructor
  · intro delta out
    refine ⟨?_, plus_step_rotation x delta out hx.1 hx.2⟩
    simp only [SO3Parameterization.Plus, mapRowMajor3_storeRowMajor3]
  · intro steps
    induction steps generalizing x with
    | nil => exact hx
    | cons s rest ih =>
      exact ih _ (plus_step_rotation x s.1 s.2 hx.1 hx.2)

/-- C4 at a concrete input: the identity block updated by `delta = (3, 4, 0)`. -/
theorem C4_plus_preserves_rotation_witness :
    IsRotation (mapRowMajor3 (fun k => if k = 0 ∨ k = 4 ∨ k = 8 then (1 : ℝ) else 0))
    ∧ IsRotation (mapRowMajor3 (SO3Parameterization.Plus Real.sqrt Real.sin Real.cos
        (fun k => if k = 0 ∨ k = 4 ∨ k = 8 then (1 : ℝ) else 0)
        (fun k => if k = 0 then 3 else if k = 1 then 4 else 0) (fun _ => 0)).2) := by
  have hI : mapRowMajor3 (fun k => if k = 0 ∨ k = 4 ∨ k = 8 then (1 : ℝ) else 0) = 1 := by
    ext i j
    fin_cases i <;> fin_cases j <;> simp [mapRowMajor3]
  have hx : IsRotation (mapRowMajor3 (fun k => if k = 0 ∨ k = 4 ∨ k = 8 then (1 : ℝ) else 0)) := by
    rw [hI]
    exact ⟨by simp, by simp⟩
  exact ⟨hx, ((C4_plus_preserves_rotation _ hx).1 _ _).2⟩


theorem fin9_val :
    ((3 : Fin 9) : Nat) = 3 ∧ ((4 : Fin 9) : Nat) = 4 ∧ ((5 : Fin 9) : Nat) = 5
    ∧ ((6 : Fin 9) : Nat) = 6 ∧ ((7 : Fin 9) : Nat) = 7 ∧ ((8 : Fin 9) : Nat) = 8 :=
  ⟨rfl, rfl, rfl, rfl, rfl, rfl⟩

theorem jacobianMatrix_ComputeJacobian {α : Type} [LinearOrderedField α]
    (x jacobian : Nat → α) :
    jacobianMatrix (SO3Parameterization.ComputeJacobian x jacobian).2 = jacobianPattern := by
  ext i j
  fin_cases i <;> fin_cases j <;>
    simp [jacobianMatrix, ComputeJacobian_snd, jacobianPattern,
      fin9_val.1, fin9_val.2.1, fin9_val.2.2.1, fin9_val.2.2.2.1, fin9_val.2.2.2.2.1,
      fin9_val.2.2.2.2.2]

theorem crossMatrix_mulVec {α : Type} [LinearOrderedField α] (d v : Vec3 α) :
    (crossMatrix d).mulVec v = crossProduct d v := by
  funext i
  fin_cases i <;>
    simp [crossMatrix, Matrix.mulVec, Matrix.dotProduct, Fin.sum_univ_three, crossProduct,
      Matrix.vecHead, Matrix.vecTail] <;> ring

/-- C5 (as stated) fails: at `delta = (0, 0, 1)` the product `J * delta` is not the
row-major flattening of `[delta]x`; position 1, entry `(0, 1)`, holds `+1` where
`[delta]x` has `-1`. -/
theorem C5_counterexample :
    (jacobianMatrix (SO3Parameterization.ComputeJacobian (fun _ => (0 : ℝ)) (fun _ => 0)).2).mulVec
        ![0, 0, 1]
      ≠ flattenRowMajor (crossMatrix ![0, 0, 1]) := by
  intro h
  have h1 := congrFun h 1
  rw [jacobianMatrix_ComputeJacobian] at h1
  simp [jacobianPattern, Matrix.mulVec, Matrix.dotProduct, Fin.sum_univ_three, flattenRowMajor,
    crossMatrix, Matrix.vecHead, Matrix.vecTail] at h1
  norm_num at h1

/-- C5 (amended): for every `x`, every prior content of `jacobian` and every tangent
vector `delta`, the 9x3 row-major matrix `J` written by `ComputeJacobian` satisfies
`J * delta =` the column-major flattening of `[delta]x`, which is the row-major
flattening of its transpose and of `-[delta]x`; `[delta]x` itself is the generator
of the increment used by `Plus`, whose antisymmetric part is `sin(angle) [axis]x`. -/
theorem C5_jacobian_times_delta (x jacobian : Nat → ℝ) (delta : Vec3 ℝ) :
    (jacobianMatrix (SO3Parameterization.ComputeJacobian x jacobian).2).mulVec delta
        = flattenColMajor (crossMatrix delta)
    ∧ flattenColMajor (crossMatrix delta) = flattenRowMajor (crossMatrix delta)ᵀ
    ∧ flattenColMajor (crossMatrix delta) = flattenRowMajor (-crossMatrix delta)
    ∧ (∀ v : Vec3 ℝ, (crossMatrix delta).mulVec v = crossProduct delta v)
    ∧ ∀ (angle : ℝ) (axis : Vec3 ℝ),
        toRotationMatrix Real.sin Real.cos angle axis
            - (toRotationMatrix Real.sin Real.cos angle axis)ᵀ
          = (2 * Real.sin angle) • crossMatrix axis := by
  refine ⟨?_, ?_, ?_, crossMatrix_mulVec delta, ?_⟩
  · rw [jacobianMatrix_ComputeJacobian]
    funext k
    fin_cases k <;>
      simp [jacobianPattern, Matrix.mulVec, Matrix.dotProduct, Fin.sum_univ_three,
        flattenColMajor, crossMatrix, Matrix.vecHead, Matrix.vecTail, fin9_val.1, fin9_val.2.1,
        fin9_val.2.2.1, fin9_val.2.2.2.1, fin9_val.2.2.2.2.1, fin9_val.2.2.2.2.2]
  · funext k
    simp [flattenColMajor, flattenRowMajor, Matrix.transpose_apply]
  · funext k
    fin_cases k <;>
      simp [flattenColMajor, flattenRowMajor, crossMatrix, Matrix.vecHead, Matrix.vecTail,
        fin9_val.1, fin9_val.2.1, fin9_val.2.2.1, fin9_val.2.2.2.1, fin9_val.2.2.2.2.1,
        fin9_val.2.2.2.2.2]
  · intro angle axis
    ext i j
    fin_cases i <;> fin_cases j <;>
      simp [toRotationMatrix, crossMatrix, Matrix.vecHead, Matrix.vecTail] <;> ring

/-- C6: for every `x` (and every prior content of the output array)
`ComputeJacobian` returns true and writes the same 9x3 row-major matrix; its
non-zero entries are exactly the six positions `(1,2), (2,1), (3,2), (5,0), (6,1),
(7,0)`, each `+1` or `-1`, one per row `1, 2, 3, 5, 6, 7`; rows `0, 4, 8` are zero;
`GlobalSize` is 9 and `LocalSize` is 3. -/
theorem C6_jacobian_constant_pattern (x jacobian : Nat → ℝ) :
    (SO3Parameterization.ComputeJacobian x jacobian).1 = true
    ∧ jacobianMatrix (SO3Parameterization.ComputeJacobian x jacobian).2 = jacobianPattern
    ∧ (∀ x2 jacobian2 : Nat → ℝ,
        jacobianMatrix (SO3Parameterization.ComputeJacobian x2 jacobian2).2
          = jacobianMatrix (SO3Parameterization.ComputeJacobian x jacobian).2)
    ∧ (∀ (i : Fin 9) (j : Fin 3),
        jacobianMatrix (SO3Parameterization.ComputeJacobian x jacobian).2 i j ≠ 0 ↔
          (i.val, j.val) ∈ [(1, 2), (2, 1), (3, 2), (5, 0), (6, 1), (7, 0)])
    ∧ (Finset.univ.filter (fun p : Fin 9 × Fin 3 =>
        jacobianMatrix (SO3Parameterization.ComputeJacobian x jacobian).2 p.1 p.2 ≠ 0)).card = 6
    ∧ (∀ (i : Fin 9) (j : Fin 3),
        jacobianMatrix (SO3Parameterization.ComputeJacobian x jacobian).2 i j = 0
        ∨ jacobianMatrix (SO3Parameterization.ComputeJacobian x jacobian).2 i j = 1
        ∨ jacobianMatrix (SO3Parameterization.ComputeJacobian x jacobian).2 i j = -1)
    ∧ (∀ i : Fin 9, i = 0 ∨ i = 4 ∨ i = 8 →
        ∀ j : Fin 3, jacobianMatrix (SO3Parameterization.ComputeJacobian x jacobian).2 i j = 0)
    ∧ (∀ k : Nat, 27 ≤ k → (SO3Parameterization.ComputeJacobian x jacobian).2 k = jacobian k)
    ∧ SO3Parameterization.GlobalSize = 9 ∧ SO3Parameterization.LocalSize = 3 := by
  have hiff : ∀ (i : Fin 9) (j : Fin 3),
      jacobianMatrix (SO3Parameterization.ComputeJacobian x jacobian).2 i j ≠ 0 ↔
        (i.val, j.val) ∈ [(1, 2), (2, 1), (3, 2), (5, 0), (6, 1), (7, 0)] := by
    intro i j
    rw [jacobianMatrix_ComputeJacobian]
    fin_cases i <;> fin_cases j <;>
      simp [jacobianPattern, fin9_val.1, fin9_val.2.1, fin9_val.2.2.1, fin9_val.2.2.2.1,
        fin9_val.2.2.2.2.1, fin9_val.2.2.2.2.2] <;> decide
  refine ⟨rfl, jacobianMatrix_ComputeJacobian x jacobian, ?_, hiff, ?_, ?_, ?_, ?_, rfl, rfl⟩
  · intro x2 jacobian2
    rw [jacobianMatrix_ComputeJacobian, jacobianMatrix_ComputeJacobian]
  · have hset : Finset.univ.filter (fun p : Fin 9 × Fin 3 =>
        jacobianMatrix (SO3Parameterization.ComputeJacobian x jacobian).2 p.1 p.2 ≠ 0)
        = Finset.univ.filter (fun p : Fin 9 × Fin 3 =>
            (p.1.val, p.2.val) ∈ [(1, 2), (2, 1), (3, 2), (5, 0), (6, 1), (7, 0)]) := by
      apply Finset.filter_congr
      intro p _
      exact hiff p.1 p.2
    rw [hset]
    decide
  · intro i j
    rw [jacobianMatrix_ComputeJacobian]
    fin_cases i <;> fin_cases j <;>
      simp [jacobianPattern, fin9_val.1, fin9_val.2.1, fin9_val.2.2.1, fin9_val.2.2.2.1,
        fin9_val.2.2.2.2.1, fin9_val.2.2.2.2.2]
  · intro i hi j
    rw [jacobianMatrix_ComputeJacobian]
    rcases hi with h | h | h <;> subst h <;> fin_cases j <;>
      simp [jacobianPattern, fin9_val.1, fin9_val.2.1, fin9_val.2.2.1, fin9_val.2.2.2.1,
        fin9_val.2.2.2.2.1, fin9_val.2.2.2.2.2]
  · intro k hk
    rw [ComputeJacobian_snd]
    have h1 : k ≠ 21 := by omega
    have h2 : k ≠ 19 := by omega
    have h3 : k ≠ 15 := by omega
    have h4 : k ≠ 11 := by omega
    have h5 : k ≠ 7 := by omega
    have h6 : k ≠ 5 := by omega
    have h7 : ¬ k < 27 := by omega
    simp [h1, h2, h3, h4, h5, h6, h7]


/-! ## The reprojection cost -/

theorem vec2_eta {α : Type} (v : Vec2 α) : ![v 0, v 1] = v := by
  funext i
  fin_cases i <;> rfl

theorem Evaluate_fst {α : Type} [LinearOrderedField α] (cam : CameraModel α)
    (fi fj : PointFeature α) (parameters : Nat → Nat → α) (residuals : Nat → α)
    (jacobians : Option (Nat → Option (Nat → α))) :
    (Cost.Evaluate cam fi fj parameters residuals jacobians).1 = true := by
  cases jacobians <;> rfl

theorem Evaluate_residuals {α : Type} [LinearOrderedField α] (cam : CameraModel α)
    (fi fj : PointFeature α) (parameters : Nat → Nat → α) (residuals : Nat → α)
    (jacobians : Option (Nat → Option (Nat → α))) :
    (Cost.Evaluate cam fi fj parameters residuals jacobians).2.1
      = Function.update (Function.update residuals 0
          (predictedMinusObserved cam fi fj (mapRowMajor3 (parameters 0))
            (mapRowMajor3 (parameters 1))
            (cameraOfBlocks (parameters 2) (parameters 3) (parameters 4))
            (cameraOfBlocks (parameters 5) (parameters 6) (parameters 7)) 0)) 1
          (predictedMinusObserved cam fi fj (mapRowMajor3 (parameters 0))
            (mapRowMajor3 (parameters 1))
            (cameraOfBlocks (parameters 2) (parameters 3) (parameters 4))
            (cameraOfBlocks (parameters 5) (parameters 6) (parameters 7)) 1) := by
  have hz : (![0, 0, 0] : Vec3 α) = 0 := by
    funext i
    fin_cases i <;> rfl
  cases jacobians <;>
    simp [Cost.Evaluate, predictedMinusObserved, cameraOfBlocks, CameraModel.project,
      Pose3.apply, hz, Matrix.vecHead, Matrix.vecTail]

/-- C1: for all features and all parameter blocks, `Cost(fi, fj).Evaluate` returns
true and writes, in `residuals[0]` and `residuals[1]`, the projection through
camera j (built from slots 5, 6, 7), with distortion, of the direction recovered
through camera i (built from slots 2, 3, 4) and rotated by `R = Rj * Ri^T`, minus the
observation `fj`: predicted minus observed in the target view; the rest of
`residuals` is untouched. -/
theorem C1_evaluate_residual {α : Type} [LinearOrderedField α] (cam : CameraModel α)
    (fi fj : PointFeature α) (parameters : Nat → Nat → α) (residuals : Nat → α)
    (jacobians : Option (Nat → Option (Nat → α))) :
    (Cost.Evaluate cam fi fj parameters residuals jacobians).1 = true
    ∧ (∀ k : Fin 2, (Cost.Evaluate cam fi fj parameters residuals jacobians).2.1 k.val
        = predictedMinusObserved cam fi fj (mapRowMajor3 (parameters 0))
            (mapRowMajor3 (parameters 1))
            (cameraOfBlocks (parameters 2) (parameters 3) (parameters 4))
            (cameraOfBlocks (parameters 5) (parameters 6) (parameters 7)) k)
    ∧ ∀ k : Nat, 2 ≤ k →
        (Cost.Evaluate cam fi fj parameters residuals jacobians).2.1 k = residuals k := by
  refine ⟨Evaluate_fst cam fi fj parameters residuals jacobians, ?_, ?_⟩
  · intro k
    rw [Evaluate_residuals]
    fin_cases k <;> simp
  · intro k hk
    rw [Evaluate_residuals]
    have h0 : k ≠ 0 := by omega
    have h1 : k ≠ 1 := by omega
    simp [Function.update_apply, h0, h1]


theorem rotate_back {α : Type} [LinearOrderedField α] (Ri Rj : Mat3 α) (p : Vec3 α)
    (hRi : Riᵀ * Ri = 1) : (Rj * Riᵀ).mulVec (Ri.mulVec p) = Rj.mulVec p := by
  rw [Matrix.mulVec_mulVec, Matrix.mul_assoc, hRi, Matrix.mul_one]

theorem predictedMinusObserved_observe {α : Type} [LinearOrderedField α]
    (cam : CameraModel α) (p : Vec3 α) (Ri Rj : Mat3 α)
    (camera_i camera_j : EquiDistantRadialK3 α) (hRi : Riᵀ * Ri = 1)
    (hinv : cam.toUnitSphere camera_i (cam.remove_disto camera_i
        (cam.ima2cam camera_i (cam.project camera_i ⟨Ri, 0⟩ p true))) = Ri.mulVec p) :
    predictedMinusObserved cam (observe cam camera_i Ri p) (observe cam camera_j Rj p)
      Ri Rj camera_i camera_j = 0 := by
  simp only [predictedMinusObserved, observe, vec2_eta, hinv, rotate_back Ri Rj p hRi]
  simp [CameraModel.project, Pose3.apply]

/-- C2: when the two features are the projections of one direction `p` by the two
views (as `main` generates them), the rotations are orthonormal and the inverse
chain of the source camera recovers the rotated direction exactly, the residual
written by `Evaluate` at those rotations and intrinsics is `(0, 0)`, in the direction
`i -> j` and, with the blocks of the two views swapped, in the direction `j -> i`. -/
theorem C2_zero_residual_at_truth {α : Type} [LinearOrderedField α] (cam : CameraModel α)
    (p : Vec3 α) (Ri Rj focal_i center_i disto_i focal_j center_j disto_j : Nat → α)
    (residuals : Nat → α) (jacobians : Option (Nat → Option (Nat → α)))
    (hRi : (mapRowMajor3 Ri)ᵀ * mapRowMajor3 Ri = 1)
    (hRj : (mapRowMajor3 Rj)ᵀ * mapRowMajor3 Rj = 1)
    (hinv_i : cam.toUnitSphere (cameraOfBlocks focal_i center_i disto_i)
        (cam.remove_disto (cameraOfBlocks focal_i center_i disto_i)
          (cam.ima2cam (cameraOfBlocks focal_i center_i disto_i)
            (cam.project (cameraOfBlocks focal_i center_i disto_i)
              ⟨mapRowMajor3 Ri, 0⟩ p true)))
      = (mapRowMajor3 Ri).mulVec p)
    (hinv_j : cam.toUnitSphere (cameraOfBlocks focal_j center_j disto_j)
        (cam.remove_disto (cameraOfBlocks focal_j center_j disto_j)
          (cam.ima2cam (cameraOfBlocks focal_j center_j disto_j)
            (cam.project (cameraOfBlocks focal_j center_j disto_j)
              ⟨mapRowMajor3 Rj, 0⟩ p true)))
      = (mapRowMajor3 Rj).mulVec p) :
    (∀ k : Fin 2,
      (Cost.Evaluate cam
        (observe cam (cameraOfBlocks focal_i center_i disto_i) (mapRowMajor3 Ri) p)
        (observe cam (cameraOfBlocks focal_j center_j disto_j) (mapRowMajor3 Rj) p)
        (parameterSlots Ri Rj focal_i center_i disto_i focal_j center_j disto_j)
        residuals jacobians).2.1 k.val = 0)
    ∧ ∀ k : Fin 2,
      (Cost.Evaluate cam
        (observe cam (cameraOfBlocks focal_j center_j disto_j) (mapRowMajor3 Rj) p)
        (observe cam (cameraOfBlocks focal_i center_i disto_i) (mapRowMajor3 Ri) p)
        (parameterSlots Rj Ri focal_j center_j disto_j focal_i center_i disto_i)
        residuals jacobians).2.1 k.val = 0 := by
  constructor
  · intro k
    rw [Evaluate_residuals]
    simp only [parameterSlots]
    rw [predictedMinusObserved_observe cam p _ _ _ _ hRi hinv_i]
    fin_cases k <;> simp
  · intro k
    rw [Evaluate_residuals]
    simp only [parameterSlots]
    rw [predictedMinusObserved_observe cam p _ _ _ _ hRj hinv_j]
    fin_cases k <;> simp

/-- C2 at a concrete input: the orthographic sample camera, the identity and a
quarter turn, and the direction `(1, 2, 0)`. -/
theorem C2_zero_residual_at_truth_witness :
    (Cost.Evaluate sampleCamera
        (observe sampleCamera (cameraOfBlocks (fun _ => 1) (fun _ => 5) (fun _ => 0))
          (mapRowMajor3 identityBlock) ![1, 2, 0])
        (observe sampleCamera (cameraOfBlocks (fun _ => 1) (fun _ => 7) (fun _ => 0))
          (mapRowMajor3 quarterTurnBlock) ![1, 2, 0])
        (parameterSlots identityBlock quarterTurnBlock (fun _ => 1) (fun _ => 5) (fun _ => 0)
          (fun _ => 1) (fun _ => 7) (fun _ => 0))
        (fun _ => 9) none).2.1 0 = 0
    ∧ (Cost.Evaluate sampleCamera
        (observe sampleCamera (cameraOfBlocks (fun _ => 1) (fun _ => 5) (fun _ => 0))
          (mapRowMajor3 identityBlock) ![1, 2, 0])
        (observe sampleCamera (cameraOfBlocks (fun _ => 1) (fun _ => 7) (fun _ => 0))
          (mapRowMajor3 quarterTurnBlock) ![1, 2, 0])
        (parameterSlots identityBlock quarterTurnBlock (fun _ => 1) (fun _ => 5) (fun _ => 0)
          (fun _ => 1) (fun _ => 7) (fun _ => 0))
        (fun _ => 9) none).2.1 1 = 0 := by
  have hI : mapRowMajor3 identityBlock = 1 := by
    ext i j
    fin_cases i <;> fin_cases j <;> simp [mapRowMajor3, identityBlock]
  have hQ : mapRowMajor3 quarterTurnBlock = !![0, -1, 0; 1, 0, 0; 0, 0, 1] := by
    ext i j
    fin_cases i <;> fin_cases j <;>
      simp [mapRowMajor3, quarterTurnBlock, Matrix.vecHead, Matrix.vecTail]
  have h1 : (mapRowMajor3 identityBlock)ᵀ * mapRowMajor3 identityBlock = 1 := by
    rw [hI]; simp
  have h2 : (mapRowMajor3 quarterTurnBlock)ᵀ * mapRowMajor3 quarterTurnBlock = 1 := by
    rw [hQ]
    ext i j
    fin_cases i <;> fin_cases j <;>
      simp [Matrix.mul_apply, Fin.sum_univ_three, Matrix.vecHead, Matrix.vecTail]
  have h3 : sampleCamera.toUnitSphere (cameraOfBlocks (fun _ => 1) (fun _ => 5) (fun _ => 0))
      (sampleCamera.remove_disto (cameraOfBlocks (fun _ => 1) (fun _ => 5) (fun _ => 0))
        (sampleCamera.ima2cam (cameraOfBlocks (fun _ => 1) (fun _ => 5) (fun _ => 0))
          (sampleCamera.project (cameraOfBlocks (fun _ => 1) (fun _ => 5) (fun _ => 0))
            ⟨mapRowMajor3 identityBlock, 0⟩ ![1, 2, 0] true)))
      = (mapRowMajor3 identityBlock).mulVec ![1, 2, 0] := by
    rw [hI]
    funext i
    fin_cases i <;>
      simp [sampleCamera, CameraModel.project, Pose3.apply, cameraOfBlocks]
  have h4 : sampleCamera.toUnitSphere (cameraOfBlocks (fun _ => 1) (fun _ => 7) (fun _ => 0))
      (sampleCamera.remove_disto (cameraOfBlocks (fun _ => 1) (fun _ => 7) (fun _ => 0))
        (sampleCamera.ima2cam (cameraOfBlocks (fun _ => 1) (fun _ => 7) (fun _ => 0))
          (sampleCamera.project (cameraOfBlocks (fun _ => 1) (fun _ => 7) (fun _ => 0))
            ⟨mapRowMajor3 quarterTurnBlock, 0⟩ ![1, 2, 0] true)))
      = (mapRowMajor3 quarterTurnBlock).mulVec ![1, 2, 0] := by
    rw [hQ]
    funext i
    fin_cases i <;>
      simp [sampleCamera, CameraModel.project, Pose3.apply, cameraOfBlocks, Matrix.mulVec,
        Matrix.dotProduct, Fin.sum_univ_three, Matrix.vecHead, Matrix.vecTail]
  exact ⟨(C2_zero_residual_at_truth sampleCamera ![1, 2, 0] identityBlock quarterTurnBlock
      (fun _ => 1) (fun _ => 5) (fun _ => 0) (fun _ => 1) (fun _ => 7) (fun _ => 0)
      (fun _ => 9) none h1 h2 h3 h4).1 0,
    (C2_zero_residual_at_truth sampleCamera ![1, 2, 0] identityBlock quarterTurnBlock
      (fun _ => 1) (fun _ => 5) (fun _ => 0) (fun _ => 1) (fun _ => 7) (fun _ => 0)
      (fun _ => 9) none h1 h2 h3 h4).1 1⟩

/-! ## Features and correspondences -/

theorem mapInsert_last {ν : Type} (k : Nat) (v : ν) (m : List (Nat × ν))
    (h : ∀ e ∈ m, e.1 < k) : mapInsert intLt k v m = m ++ [(k, v)] := by
  induction m with
  | nil => rfl
  | cons e rest ih =>
    obtain ⟨k1, v1⟩ := e
    have h1 : k1 < k := h (k1, v1) (List.mem_cons_self _ _)
    have h2 : ¬ k < k1 := by omega
    simp only [mapInsert, intLt, h1, h2, decide_True, decide_False, if_true, if_false,
      Bool.false_eq_true, List.cons_append]
    rw [ih (fun e he => h e (List.mem_cons_of_mem _ he))]

theorem assignIds_key_ge {β : Type} (passes : β → Bool) (pts : List β) (index next : Nat) :
    ∀ e ∈ assignIds passes pts index next, index ≤ e.1 := by
  induction pts generalizing index next with
  | nil => intro e he; simp [assignIds] at he
  | cons pt rest ih =>
    intro e he
    simp only [assignIds] at he
    split at he
    · rcases List.mem_cons.mp he with h | h
      · rw [h]
      · exact Nat.le_of_succ_le (ih _ _ e h)
    · exact Nat.le_of_succ_le (ih _ _ e he)

theorem projectPoints_eq {α : Type} [LinearOrderedField α] (cam : CameraModel α)
    (intrinsic : EquiDistantRadialK3 α) (rotation : Mat3 α) (pts : List (Vec3 α))
    (index : Nat) (projected : List (Nat × Nat)) (feats : List (PointFeature α))
    (h : ∀ e ∈ projected, e.1 < index) :
    projectPoints cam intrinsic ⟨rotation, 0⟩ pts index (projected, feats)
      = (projected ++ assignIds (passesVisibility cam intrinsic rotation) pts index feats.length,
          feats ++ (pts.filter (passesVisibility cam intrinsic rotation)).map
            (observe cam intrinsic rotation)) := by
  induction pts generalizing index projected feats with
  | nil => simp [projectPoints, assignIds]
  | cons pt rest ih =>
    have hlt : ∀ e ∈ projected, e.1 < index + 1 := fun e he => Nat.lt_succ_of_lt (h e he)
    simp only [projectPoints]
    by_cases hray : cam.isVisibleRay intrinsic ((⟨rotation, 0⟩ : Pose3 α).apply pt) = true
    · by_cases hpix : cam.isVisible intrinsic (cam.project intrinsic ⟨rotation, 0⟩ pt true) = true
      · have hp : passesVisibility cam intrinsic rotation pt = true := by
          simp [passesVisibility, hray, hpix]
        simp only [hray, hpix, Bool.not_true, Bool.false_eq_true, if_false]
        rw [mapInsert_last index feats.length projected h, ih]
        · simp [assignIds, hp, List.filter_cons, observe]
        · intro e he
          rcases List.mem_append.mp he with h1 | h1
          · exact hlt e h1
          · simp only [List.mem_singleton] at h1
            rw [h1]
            exact Nat.lt_succ_self index
      · have hp : passesVisibility cam intrinsic rotation pt = false := by
          simp [passesVisibility, hpix]
        simp only [hray, hpix, Bool.not_true, Bool.false_eq_true, if_false, Bool.not_false,
          if_true]
        rw [ih _ _ _ hlt]
        simp [assignIds, hp, List.filter_cons]
    · have hp : passesVisibility cam intrinsic rotation pt = false := by
        simp [passesVisibility, hray]
      simp only [hray, Bool.not_false, if_true]
      rw [ih _ _ _ hlt]
      simp [assignIds, hp, List.filter_cons]


theorem mapFind_cons_nat {ν : Type} (k k1 : Nat) (v1 : ν) (rest : List (Nat × ν)) :
    mapFind intLt k ((k1, v1) :: rest) = if k = k1 then some v1 else mapFind intLt k rest := by
  simp only [mapFind, intLt]
  by_cases h : k = k1
  · subst h
    simp
  · have h2 : k < k1 ∨ k1 < k := by omega
    rcases h2 with h2 | h2
    · simp [h, h2]
    · simp [h, h2]

theorem mapFind_assignIds_lt {β : Type} (passes : β → Bool) (pts : List β)
    (index next k : Nat) (hk : k < index) :
    mapFind intLt k (assignIds passes pts index next) = none := by
  induction pts generalizing index next with
  | nil => rfl
  | cons pt rest ih =>
    simp only [assignIds]
    split
    · rw [mapFind_cons_nat, if_neg (by omega)]
      exact ih _ _ (by omega)
    · exact ih _ _ (by omega)

theorem mapFind_assignIds {β : Type} (passes : β → Bool) (pts : List β)
    (index next q : Nat) :
    mapFind intLt (index + q) (assignIds passes pts index next)
      = match pts[q]? with
        | some pt => if passes pt then some (next + (pts.take q).countP passes) else none
        | none => none := by
  induction pts generalizing index next q with
  | nil => simp [assignIds, mapFind]
  | cons pt rest ih =>
    cases q with
    | zero =>
      simp only [assignIds, Nat.add_zero, List.getElem?_cons_zero, List.take_zero,
        List.countP_nil]
      split
      · rw [mapFind_cons_nat, if_pos rfl]
      · exact mapFind_assignIds_lt _ _ _ _ _ (Nat.lt_succ_self index)
    | succ q =>
      have hidx : index + (q + 1) = index + 1 + q := by omega
      simp only [assignIds, List.getElem?_cons_succ, List.take_succ_cons, List.countP_cons]
      by_cases hp : passes pt = true
      · simp only [hp, if_true]
        rw [mapFind_cons_nat, if_neg (by omega), hidx, ih]
        cases rest[q]? with
        | none => rfl
        | some pt2 =>
          simp only
          split
          · congr 1
            omega
          · rfl
      · simp only [hp, Bool.false_eq_true, if_false, Nat.add_zero]
        rw [hidx, ih]

theorem mem_assignIds_iff {β : Type} (passes : β → Bool) (pts : List β)
    (index next k a : Nat) :
    (k, a) ∈ assignIds passes pts index next
      ↔ mapFind intLt k (assignIds passes pts index next) = some a := by
  induction pts generalizing index next with
  | nil => simp [assignIds, mapFind]
  | cons pt rest ih =>
    simp only [assignIds]
    split
    · rw [mapFind_cons_nat, List.mem_cons]
      by_cases hk : k = index
      · subst hk
        simp only [if_true, Option.some.injEq, Prod.mk.injEq, true_and]
        constructor
        · rintro (h | h)
          · exact h.symm
          · have := assignIds_key_ge passes rest (k + 1) (next + 1) (k, a) h
            simp at this
        · intro h
          exact Or.inl h.symm
      · simp only [hk, if_false, Prod.mk.injEq, false_and, false_or]
        exact ih _ _
    · exact ih _ _

theorem matchViews_foldl (second : List (Nat × Nat)) (first : List (Nat × Nat))
    (acc : List IndMatch) :
    first.foldl (fun matchList item =>
        match mapFind intLt item.1 second with
        | none => matchList
        | some partner => matchList ++ [⟨item.2, partner, 2 / 5⟩]) acc
      = acc ++ first.filterMap (fun item =>
          (mapFind intLt item.1 second).map (fun partner => ⟨item.2, partner, 2 / 5⟩)) := by
  induction first generalizing acc with
  | nil => simp
  | cons item rest ih =>
    simp only [List.foldl_cons, List.filterMap_cons]
    rw [ih]
    cases mapFind intLt item.1 second <;> simp

theorem matchViews_eq (first second : List (Nat × Nat)) :
    matchViews first second
      = first.filterMap (fun item =>
          (mapFind intLt item.1 second).map (fun partner => ⟨item.2, partner, 2 / 5⟩)) := by
  unfold matchViews
  rw [matchViews_foldl]
  rfl

theorem mem_matchViews (first second : List (Nat × Nat)) (m : IndMatch) :
    m ∈ matchViews first second
      ↔ ∃ item ∈ first, ∃ partner, mapFind intLt item.1 second = some partner
          ∧ m = ⟨item.2, partner, 2 / 5⟩ := by
  rw [matchViews_eq, List.mem_filterMap]
  constructor
  · rintro ⟨item, hitem, h⟩
    refine ⟨item, hitem, ?_⟩
    cases hf : mapFind intLt item.1 second with
    | none => rw [hf] at h; simp at h
    | some partner =>
      rw [hf] at h
      simp only [Option.map_some', Option.some.injEq] at h
      exact ⟨partner, rfl, h.symm⟩
  · rintro ⟨item, hitem, partner, hf, rfl⟩
    exact ⟨item, hitem, by rw [hf]; rfl⟩


theorem projectPoints_start {α : Type} [LinearOrderedField α] (cam : CameraModel α)
    (intrinsics : Nat → EquiDistantRadialK3 α) (r : Nat → Mat3 α) (points : List (Vec3 α))
    (view : Nat) :
    projectPoints cam (intrinsics view) ⟨r view, 0⟩ points 0 ([], [])
      = (projectedOf cam intrinsics r points view, featuresOf cam intrinsics r points view) := by
  rw [projectPoints_eq cam (intrinsics view) (r view) points 0 [] [] (by simp)]
  simp [projectedOf, featuresOf]

theorem generateViews_eq {α : Type} [LinearOrderedField α] (cam : CameraModel α)
    (intrinsics : Nat → EquiDistantRadialK3 α) (r : Nat → Mat3 α) (points : List (Vec3 α)) :
    generateViews cam intrinsics r points
      = ⟨[(0, projectedOf cam intrinsics r points 0), (1, projectedOf cam intrinsics r points 1),
            (2, projectedOf cam intrinsics r points 2)],
          [(0, featuresOf cam intrinsics r points 0), (1, featuresOf cam intrinsics r points 1),
            (2, featuresOf cam intrinsics r points 2)]⟩ := by
  simp [generateViews, List.range_succ, projectPoints_start, mapInsert, intLt]

theorem buildMatches_three (P0 P1 P2 : List (Nat × Nat)) :
    buildMatches [(0, P0), (1, P1), (2, P2)] []
      = [((0, 1), matchViews P0 P1), ((0, 2), matchViews P0 P2), ((1, 2), matchViews P1 P2)] := by
  simp [buildMatches, mapInsert, pairLt]

theorem pwMatchesOf_eq {α : Type} [LinearOrderedField α] (cam : CameraModel α)
    (intrinsics : Nat → EquiDistantRadialK3 α) (r : Nat → Mat3 α) (points : List (Vec3 α)) :
    pwMatchesOf cam intrinsics r points
      = [((0, 1), matchViews (projectedOf cam intrinsics r points 0)
            (projectedOf cam intrinsics r points 1)),
          ((0, 2), matchViews (projectedOf cam intrinsics r points 0)
            (projectedOf cam intrinsics r points 2)),
          ((1, 2), matchViews (projectedOf cam intrinsics r points 1)
            (projectedOf cam intrinsics r points 2))] := by
  rw [pwMatchesOf, generateViews_eq, buildMatches_three]


theorem mapFind_assignIds_some {β : Type} (passes : β → Bool) (pts : List β)
    (next q a : Nat) :
    mapFind intLt q (assignIds passes pts 0 next) = some a
      ↔ ∃ pt, pts[q]? = some pt ∧ passes pt = true
          ∧ a = next + (pts.take q).countP passes := by
  have h := mapFind_assignIds passes pts 0 next q
  rw [Nat.zero_add] at h
  rw [h]
  cases hq : pts[q]? with
  | none => simp
  | some pt =>
    by_cases hp : passes pt = true
    · simp only [hp, if_true, Option.some.injEq, true_and, exists_eq_left']
      exact eq_comm
    · simp [hp]

theorem mem_matchViews_assignIds {β : Type} (pa pb : β → Bool) (pts : List β) (a b : Nat) :
    (⟨a, b, 2 / 5⟩ : IndMatch) ∈ matchViews (assignIds pa pts 0 0) (assignIds pb pts 0 0)
      ↔ ∃ (p : Nat) (pt : β), pts[p]? = some pt ∧ pa pt = true ∧ pb pt = true
          ∧ mapFind intLt p (assignIds pa pts 0 0) = some a
          ∧ mapFind intLt p (assignIds pb pts 0 0) = some b := by
  rw [mem_matchViews]
  constructor
  · rintro ⟨⟨k, a1⟩, hitem, partner, hf, heq⟩
    simp only [IndMatch.mk.injEq, and_true] at heq
    obtain ⟨rfl, rfl⟩ := heq
    have ha := (mem_assignIds_iff pa pts 0 0 k a).mp hitem
    obtain ⟨pt, hpt, hpa, _⟩ := (mapFind_assignIds_some pa pts 0 k a).mp ha
    obtain ⟨pt2, hpt2, hpb, _⟩ := (mapFind_assignIds_some pb pts 0 k b).mp hf
    rw [hpt] at hpt2
    cases hpt2
    exact ⟨k, pt, hpt, hpa, hpb, ha, hf⟩
  · rintro ⟨p, pt, _, _, _, ha, hb⟩
    exact ⟨(p, a), (mem_assignIds_iff pa pts 0 0 p a).mpr ha, b, hb, rfl⟩

theorem mapFind_nil {κ ν : Type} (lt : κ → κ → Bool) (k : κ) :
    mapFind lt k ([] : List (κ × ν)) = none := rfl

theorem mapFind_cons_pair {ν : Type} (k k1 : Nat × Nat) (v1 : ν)
    (rest : List ((Nat × Nat) × ν)) :
    mapFind pairLt k ((k1, v1) :: rest)
      = if k = k1 then some v1 else mapFind pairLt k rest := by
  obtain ⟨a, b⟩ := k
  obtain ⟨c, d⟩ := k1
  simp only [mapFind, pairLt, Prod.mk.injEq]
  by_cases h1 : a = c
  · by_cases h2 : b = d
    · subst h1 h2
      simp
    · subst h1
      have h3 : b < d ∨ d < b := by omega
      rcases h3 with h3 | h3
      · simp [h2, h3]
      · simp [h2, h3]
  · have h3 : a < c ∨ c < a := by omega
    rcases h3 with h3 | h3
    · simp [h1, h3]
    · have h4 : ¬ a < c := by omega
      simp [h1, h3, h4]

theorem matchViews_ratio (first second : List (Nat × Nat)) :
    ∀ m ∈ matchViews first second, m._distanceRatio = 2 / 5 := by
  intro m hm
  obtain ⟨item, _, partner, _, rfl⟩ := (mem_matchViews first second m).mp hm
  rfl

/-- C7: `pwMatches` has exactly the keys `(i, j)` with `i < j < 3`; the list stored
for `(i, j)` contains the match `(a, b)` if and only if some entry `p` of the sample
list passed both visibility tests in view `i` and in view `j`, `a` being the id
recorded for `p` in `projections[i]` and `b` the id recorded for `p` in
`projections[j]`; every stored match carries the ratio `0.4`. A sample visible in only
one of the two views therefore contributes no match. -/
theorem C7_match_iff_visible_in_both {α : Type} [LinearOrderedField α]
    (cam : CameraModel α) (intrinsics : Nat → EquiDistantRadialK3 α) (r : Nat → Mat3 α)
    (points : List (Vec3 α)) :
    (∀ i j : Nat,
      (∃ ms, mapFind pairLt (i, j) (pwMatchesOf cam intrinsics r points) = some ms)
        ↔ (i < j ∧ j < 3))
    ∧ ∀ (i j : Nat) (ms : List IndMatch) (proj_i proj_j : List (Nat × Nat)),
      mapFind pairLt (i, j) (pwMatchesOf cam intrinsics r points) = some ms →
      mapFind intLt i (generateViews cam intrinsics r points).projections = some proj_i →
      mapFind intLt j (generateViews cam intrinsics r points).projections = some proj_j →
      (∀ m ∈ ms, m._distanceRatio = 2 / 5)
      ∧ ∀ a b : Nat, ((⟨a, b, 2 / 5⟩ : IndMatch) ∈ ms
        ↔ ∃ (p : Nat) (pt : Vec3 α), points[p]? = some pt
            ∧ passesVisibility cam (intrinsics i) (r i) pt = true
            ∧ passesVisibility cam (intrinsics j) (r j) pt = true
            ∧ mapFind intLt p proj_i = some a
            ∧ mapFind intLt p proj_j = some b) := by
  rw [pwMatchesOf_eq, generateViews_eq]
  constructor
  · intro i j
    simp only [mapFind_cons_pair, Prod.mk.injEq, mapFind_nil]
    constructor
    · rintro ⟨ms, h⟩
      split_ifs at h <;> omega
    · intro h
      have h3 : (i = 0 ∧ j = 1) ∨ (i = 0 ∧ j = 2) ∨ (i = 1 ∧ j = 2) := by omega
      rcases h3 with h3 | h3 | h3 <;> simp [h3]
  · intro i j ms proj_i proj_j hms hi hj
    simp only [mapFind_cons_pair, Prod.mk.injEq, mapFind_nil] at hms
    simp only [mapFind_cons_nat, mapFind_nil] at hi hj
    split_ifs at hms with h1 h2 h3
    · obtain ⟨rfl, rfl⟩ := h1
      simp only [if_true, Option.some.injEq] at hi
      simp only [Nat.succ_ne_zero, if_false, if_true, Option.some.injEq] at hj
      subst hi hj
      cases hms
      exact ⟨matchViews_ratio _ _, fun a b => mem_matchViews_assignIds _ _ points a b⟩
    · obtain ⟨rfl, rfl⟩ := h2
      simp only [if_true, Option.some.injEq] at hi
      norm_num at hj
      subst hi hj
      cases hms
      exact ⟨matchViews_ratio _ _, fun a b => mem_matchViews_assignIds _ _ points a b⟩
    · obtain ⟨rfl, rfl⟩ := h3
      norm_num at hi hj
      subst hi hj
      cases hms
      exact ⟨matchViews_ratio _ _, fun a b => mem_matchViews_assignIds _ _ points a b⟩


theorem sample_passes_view0 (pt : Vec3 ℚ) :
    passesVisibility sampleCamera (sampleIntrinsics 0) (sampleRotations 0) pt
      = (decide (0 ≤ pt 2) && (decide (|pt 0| ≤ 10) && decide (|pt 1| ≤ 10))) := by
  simp [passesVisibility, sampleCamera, sampleIntrinsics, sampleRotations, Pose3.apply,
    CameraModel.project]

theorem sample_passes_view1 (pt : Vec3 ℚ) :
    passesVisibility sampleCamera (sampleIntrinsics 1) (sampleRotations 1) pt
      = (decide (0 ≤ -pt 0) && (decide (|pt 2| ≤ 10) && decide (|pt 1| ≤ 10))) := by
  simp [passesVisibility, sampleCamera, sampleIntrinsics, sampleRotations, Pose3.apply,
    CameraModel.project, Matrix.mulVec, Matrix.dotProduct, Fin.sum_univ_three,
    Matrix.vecHead, Matrix.vecTail]

theorem sample_projected_view0 :
    projectedOf sampleCamera sampleIntrinsics sampleRotations samplePoints 0
      = [(0, 0), (1, 1), (2, 2)] := by
  simp [projectedOf, samplePoints, assignIds, sample_passes_view0, abs_le]
  
theorem sample_projected_view1 :
    projectedOf sampleCamera sampleIntrinsics sampleRotations samplePoints 1
      = [(0, 0), (2, 1)] := by
  simp [projectedOf, samplePoints, assignIds, sample_passes_view1, abs_le]

theorem sample_matches_01 :
    matchViews [(0, 0), (1, 1), (2, 2)] [(0, 0), (2, 1)]
      = [⟨0, 0, 2 / 5⟩, ⟨2, 1, 2 / 5⟩] := by
  simp [matchViews, mapFind, intLt]

/-- C7 at a concrete scene: three sample points, the second one invisible in
view 1; the pair `(0, 1)` holds the matches `(0, 0)` and `(2, 1)`. -/
theorem C7_match_iff_visible_in_both_witness :
    mapFind pairLt (0, 1) (pwMatchesOf sampleCamera sampleIntrinsics sampleRotations samplePoints)
        = some [⟨0, 0, 2 / 5⟩, ⟨2, 1, 2 / 5⟩]
    ∧ mapFind intLt 0 (generateViews sampleCamera sampleIntrinsics sampleRotations
        samplePoints).projections = some [(0, 0), (1, 1), (2, 2)]
    ∧ mapFind intLt 1 (generateViews sampleCamera sampleIntrinsics sampleRotations
        samplePoints).projections = some [(0, 0), (2, 1)]
    ∧ ((⟨2, 1, 2 / 5⟩ : IndMatch) ∈ [(⟨0, 0, 2 / 5⟩ : IndMatch), ⟨2, 1, 2 / 5⟩]
      ↔ ∃ (p : Nat) (pt : Vec3 ℚ), samplePoints[p]? = some pt
          ∧ passesVisibility sampleCamera (sampleIntrinsics 0) (sampleRotations 0) pt = true
          ∧ passesVisibility sampleCamera (sampleIntrinsics 1) (sampleRotations 1) pt = true
          ∧ mapFind intLt p [(0, 0), (1, 1), (2, 2)] = some 2
          ∧ mapFind intLt p [(0, 0), (2, 1)] = some 1) := by
  have h1 : mapFind pairLt (0, 1)
      (pwMatchesOf sampleCamera sampleIntrinsics sampleRotations samplePoints)
        = some [⟨0, 0, 2 / 5⟩, ⟨2, 1, 2 / 5⟩] := by
    rw [pwMatchesOf_eq, sample_projected_view0, sample_projected_view1, sample_matches_01]
    simp [mapFind, pairLt]
  have h2 : mapFind intLt 0 (generateViews sampleCamera sampleIntrinsics sampleRotations
      samplePoints).projections = some [(0, 0), (1, 1), (2, 2)] := by
    rw [generateViews_eq, sample_projected_view0]
    simp [mapFind, intLt]
  have h3 : mapFind intLt 1 (generateViews sampleCamera sampleIntrinsics sampleRotations
      samplePoints).projections = some [(0, 0), (2, 1)] := by
    rw [generateViews_eq, sample_projected_view1]
    simp [mapFind, intLt]
  exact ⟨h1, h2, h3,
    ((C7_match_iff_visible_in_both sampleCamera sampleIntrinsics sampleRotations
      samplePoints).2 0 1 _ _ _ h1 h2 h3).2 2 1⟩


/-! ## Problem construction -/

theorem countP_take_lt {β : Type} (passes : β → Bool) (pts : List β) (q : Nat) (pt : β)
    (hq : pts[q]? = some pt) (hp : passes pt = true) :
    (pts.take q).countP passes < pts.countP passes := by
  induction pts generalizing q with
  | nil => simp at hq
  | cons x rest ih =>
    cases q with
    | zero =>
      simp only [List.getElem?_cons_zero, Option.some.injEq] at hq
      subst hq
      simp [List.countP_cons, hp]
    | succ q =>
      simp only [List.getElem?_cons_succ] at hq
      have := ih q hq
      simp only [List.take_succ_cons, List.countP_cons]
      omega

theorem matchViews_in_bounds {α : Type} [LinearOrderedField α] (cam : CameraModel α)
    (intrinsics : Nat → EquiDistantRadialK3 α) (r : Nat → Mat3 α) (points : List (Vec3 α))
    (u v : Nat) (m : IndMatch)
    (hm : m ∈ matchViews (projectedOf cam intrinsics r points u)
      (projectedOf cam intrinsics r points v)) :
    m._i < (featuresOf cam intrinsics r points u).length
    ∧ m._j < (featuresOf cam intrinsics r points v).length := by
  obtain ⟨⟨k, a⟩, hitem, partner, hf, rfl⟩ := (mem_matchViews _ _ m).mp hm
  have ha := (mem_assignIds_iff _ points 0 0 k a).mp hitem
  obtain ⟨pt, hpt, hpa, rfl⟩ := (mapFind_assignIds_some _ points 0 k a).mp ha
  obtain ⟨pt2, hpt2, hpb, rfl⟩ := (mapFind_assignIds_some _ points 0 k partner).mp hf
  simp only [featuresOf, List.length_map, ← List.countP_eq_length_filter, Nat.zero_add]
  exact ⟨countP_take_lt _ points k pt hpt hpa, countP_take_lt _ points k pt2 hpt2 hpb⟩

theorem addMatchResiduals_some {α : Type} [LinearOrderedField α]
    (features : List (Nat × List (PointFeature α))) (idviews : Nat × Nat)
    (problem : Problem α) (m : IndMatch)
    (hi : (featureAt features idviews.1 m._i).isSome = true)
    (hj : (featureAt features idviews.2 m._j).isSome = true) :
    addMatchResiduals features idviews problem m
      = some ⟨problem.parameterBlocks, problem.residualBlocks
          ++ residualPair (featureOr features idviews.1 m._i)
              (featureOr features idviews.2 m._j) idviews⟩ := by
  obtain ⟨fi, hfi⟩ := Option.isSome_iff_exists.mp hi
  obtain ⟨fj, hfj⟩ := Option.isSome_iff_exists.mp hj
  simp [addMatchResiduals, featureOr, hfi, hfj, Problem.AddResidualBlock, residualPair]

theorem addMatches_eq {α : Type} [LinearOrderedField α]
    (features : List (Nat × List (PointFeature α))) (idviews : Nat × Nat)
    (ms : List IndMatch) (problem : Problem α)
    (h : ∀ m ∈ ms, (featureAt features idviews.1 m._i).isSome = true
      ∧ (featureAt features idviews.2 m._j).isSome = true) :
    ms.foldlM (addMatchResiduals features idviews) problem
      = some ⟨problem.parameterBlocks, problem.residualBlocks
          ++ ms.flatMap fun m =>
            residualPair (featureOr features idviews.1 m._i)
              (featureOr features idviews.2 m._j) idviews⟩ := by
  induction ms generalizing problem with
  | nil => simp
  | cons m rest ih =>
    have hm := h m (List.mem_cons_self _ _)
    rw [List.foldlM_cons, addMatchResiduals_some features idviews problem m hm.1 hm.2]
    simp only [Option.bind_eq_bind, Option.some_bind]
    rw [ih _ (fun m2 hm2 => h m2 (List.mem_cons_of_mem _ hm2))]
    simp [List.flatMap_cons]

theorem addResiduals_eq {α : Type} [LinearOrderedField α]
    (features : List (Nat × List (PointFeature α)))
    (pwMatches : List ((Nat × Nat) × List IndMatch)) (problem : Problem α)
    (h : ∀ entry ∈ pwMatches, ∀ m ∈ entry.2,
      (featureAt features entry.1.1 m._i).isSome = true
      ∧ (featureAt features entry.1.2 m._j).isSome = true) :
    addResiduals features pwMatches problem
      = some ⟨problem.parameterBlocks,
          problem.residualBlocks ++ expectedResiduals features pwMatches⟩ := by
  unfold addResiduals
  induction pwMatches generalizing problem with
  | nil => simp [expectedResiduals]
  | cons entry rest ih =>
    rw [List.foldlM_cons, addMatches_eq features entry.1 entry.2 problem
      (h entry (List.mem_cons_self _ _))]
    simp only [Option.bind_eq_bind, Option.some_bind]
    rw [ih _ (fun e he => h e (List.mem_cons_of_mem _ he))]
    simp [expectedResiduals, List.flatMap_cons]


theorem featureAt_generated {α : Type} [LinearOrderedField α] (cam : CameraModel α)
    (intrinsics : Nat → EquiDistantRadialK3 α) (r : Nat → Mat3 α) (points : List (Vec3 α))
    (view id : Nat) (hv : view < 3) :
    featureAt (generateViews cam intrinsics r points).features view id
      = (featuresOf cam intrinsics r points view)[id]? := by
  rw [generateViews_eq]
  have h3 : view = 0 ∨ view = 1 ∨ view = 2 := by omega
  rcases h3 with h | h | h <;> subst h <;> simp [featureAt, mapFind_cons_nat]

theorem lookups_in_bounds {α : Type} [LinearOrderedField α] (cam : CameraModel α)
    (intrinsics : Nat → EquiDistantRadialK3 α) (r : Nat → Mat3 α) (points : List (Vec3 α)) :
    ∀ entry ∈ pwMatchesOf cam intrinsics r points, ∀ m ∈ entry.2,
      (featureAt (generateViews cam intrinsics r points).features entry.1.1 m._i).isSome = true
      ∧ (featureAt (generateViews cam intrinsics r points).features entry.1.2 m._j).isSome
          = true := by
  intro entry he m hm
  rw [pwMatchesOf_eq] at he
  simp only [List.mem_cons, List.mem_singleton, List.not_mem_nil, or_false] at he
  rcases he with rfl | rfl | rfl <;>
    · have hb := matchViews_in_bounds cam intrinsics r points _ _ m hm
      rw [featureAt_generated _ _ _ _ _ _ (by simp),
        featureAt_generated _ _ _ _ _ _ (by simp)]
      simp [hb.1, hb.2]

theorem expectedResiduals_length {α : Type} [LinearOrderedField α]
    (features : List (Nat × List (PointFeature α)))
    (pwMatches : List ((Nat × Nat) × List IndMatch)) :
    (expectedResiduals features pwMatches).length
      = 2 * (pwMatches.map fun entry => entry.2.length).sum := by
  have inner : ∀ (idviews : Nat × Nat) (ms : List IndMatch),
      (ms.flatMap fun m => residualPair (featureOr features idviews.1 m._i)
        (featureOr features idviews.2 m._j) idviews).length = 2 * ms.length := by
    intro idviews ms
    induction ms with
    | nil => rfl
    | cons m rest ih =>
      rw [List.flatMap_cons, List.length_append, ih]
      simp [residualPair]
      omega
  induction pwMatches with
  | nil => rfl
  | cons entry rest ih =>
    simp only [expectedResiduals, List.flatMap_cons, List.length_append, List.map_cons,
      List.sum_cons] at ih ⊢
    rw [ih, inner]
    omega

theorem buildProblem_eq {α : Type} [LinearOrderedField α] (cam : CameraModel α)
    (intrinsics : Nat → EquiDistantRadialK3 α) (r : Nat → Mat3 α) (points : List (Vec3 α)) :
    buildProblem cam intrinsics r points
      = some ⟨(declareBlocks (⟨[], []⟩ : Problem α)).parameterBlocks,
          expectedResiduals (generateViews cam intrinsics r points).features
            (pwMatchesOf cam intrinsics r points)⟩ := by
  unfold buildProblem
  have h := addResiduals_eq (generateViews cam intrinsics r points).features
    (pwMatchesOf cam intrinsics r points) (declareBlocks (⟨[], []⟩ : Problem α))
    (lookups_in_bounds cam intrinsics r points)
  simp only [pwMatchesOf] at h ⊢
  rw [h]
  rfl

/-- C8: the construction succeeds (every feature lookup is in bounds) and the
residual blocks of the problem are, for every match `(a, b)` of every view pair
`(i, j)` in turn, exactly the two blocks `Cost(features_i[a], features_j[b])` wired to
`(R_i, R_j, focal_i, center_i, disto_i, focal_j, center_j, disto_j)` and
`Cost(features_j[b], features_i[a])` wired with `i` and `j` swapped; their number is
twice the total number of matches. -/
theorem C8_two_residuals_per_match {α : Type} [LinearOrderedField α] (cam : CameraModel α)
    (intrinsics : Nat → EquiDistantRadialK3 α) (r : Nat → Mat3 α) (points : List (Vec3 α)) :
    ∃ problem : Problem α, buildProblem cam intrinsics r points = some problem
      ∧ problem.residualBlocks
          = (pwMatchesOf cam intrinsics r points).flatMap (fun entry =>
              entry.2.flatMap fun m =>
                residualPair
                  (featureOr (generateViews cam intrinsics r points).features entry.1.1 m._i)
                  (featureOr (generateViews cam intrinsics r points).features entry.1.2 m._j)
                  entry.1)
      ∧ (∀ entry ∈ pwMatchesOf cam intrinsics r points, ∀ m ∈ entry.2,
          ∃ fi fj : PointFeature α,
            featureAt (generateViews cam intrinsics r points).features entry.1.1 m._i = some fi
            ∧ featureAt (generateViews cam intrinsics r points).features entry.1.2 m._j
                = some fj
            ∧ (⟨fi, fj, [.r entry.1.1, .r entry.1.2,
                  .params entry.1.1 0, .params entry.1.1 1, .params entry.1.1 3,
                  .params entry.1.2 0, .params entry.1.2 1, .params entry.1.2 3]⟩
                : ResidualBlock α) ∈ problem.residualBlocks
            ∧ (⟨fj, fi, [.r entry.1.2, .r entry.1.1,
                  .params entry.1.2 0, .params entry.1.2 1, .params entry.1.2 3,
                  .params entry.1.1 0, .params entry.1.1 1, .params entry.1.1 3]⟩
                : ResidualBlock α) ∈ problem.residualBlocks)
      ∧ problem.residualBlocks.length
          = 2 * ((pwMatchesOf cam intrinsics r points).map fun entry => entry.2.length).sum := by
  refine ⟨_, buildProblem_eq cam intrinsics r points, rfl, ?_, ?_⟩
  · intro entry he m hm
    obtain ⟨hi, hj⟩ := lookups_in_bounds cam intrinsics r points entry he m hm
    obtain ⟨fi, hfi⟩ := Option.isSome_iff_exists.mp hi
    obtain ⟨fj, hfj⟩ := Option.isSome_iff_exists.mp hj
    have hmem : ∀ rb ∈ residualPair fi fj entry.1,
        rb ∈ expectedResiduals (generateViews cam intrinsics r points).features
          (pwMatchesOf cam intrinsics r points) := by
      intro rb hrb
      simp only [expectedResiduals, List.mem_flatMap]
      refine ⟨entry, he, m, hm, ?_⟩
      simpa [featureOr, hfi, hfj] using hrb
    refine ⟨fi, fj, hfi, hfj, hmem _ ?_, hmem _ ?_⟩
    · simp [residualPair]
    · simp [residualPair]
  · exact expectedResiduals_length _ _


theorem declareBlocks_parameterBlocks {α : Type} :
    (declareBlocks (⟨[], []⟩ : Problem α)).parameterBlocks
      = [⟨.params 0 0, 1, false, true⟩, ⟨.params 0 1, 2, false, true⟩,
          ⟨.params 0 3, 3, false, false⟩,
          ⟨.params 1 0, 1, false, true⟩, ⟨.params 1 1, 2, false, true⟩,
          ⟨.params 1 3, 3, false, false⟩,
          ⟨.params 2 0, 1, false, true⟩, ⟨.params 2 1, 2, false, true⟩,
          ⟨.params 2 3, 3, false, false⟩,
          ⟨.r 0, 9, true, true⟩, ⟨.r 1, 9, true, true⟩, ⟨.r 2, 9, true, true⟩] := by
  simp [declareBlocks, Problem.AddParameterBlock, Problem.SetParameterBlockConstant]

theorem mem_expectedResiduals {α : Type} [LinearOrderedField α]
    (features : List (Nat × List (PointFeature α)))
    (pwMatches : List ((Nat × Nat) × List IndMatch)) (rb : ResidualBlock α)
    (h : rb ∈ expectedResiduals features pwMatches) :
    ∃ entry ∈ pwMatches,
      rb.blocks = [.r entry.1.1, .r entry.1.2,
          .params entry.1.1 0, .params entry.1.1 1, .params entry.1.1 3,
          .params entry.1.2 0, .params entry.1.2 1, .params entry.1.2 3]
      ∨ rb.blocks = [.r entry.1.2, .r entry.1.1,
          .params entry.1.2 0, .params entry.1.2 1, .params entry.1.2 3,
          .params entry.1.1 0, .params entry.1.1 1, .params entry.1.1 3] := by
  simp only [expectedResiduals, List.mem_flatMap] at h
  obtain ⟨entry, he, m, _, hrb⟩ := h
  refine ⟨entry, he, ?_⟩
  simp only [residualPair, List.mem_cons, List.mem_singleton, List.not_mem_nil, or_false] at hrb
  rcases hrb with rfl | rfl
  · exact Or.inl rfl
  · exact Or.inr rfl

theorem residual_wiring {α : Type} [LinearOrderedField α] (cam : CameraModel α)
    (intrinsics : Nat → EquiDistantRadialK3 α) (r : Nat → Mat3 α) (points : List (Vec3 α))
    (rb : ResidualBlock α)
    (h : rb ∈ expectedResiduals (generateViews cam intrinsics r points).features
      (pwMatchesOf cam intrinsics r points)) :
    ∃ s t : Nat, s < 3 ∧ t < 3 ∧ s ≠ t
      ∧ rb.blocks = [.r s, .r t, .params s 0, .params s 1, .params s 3,
          .params t 0, .params t 1, .params t 3] := by
  obtain ⟨entry, he, hb⟩ := mem_expectedResiduals _ _ rb h
  rw [pwMatchesOf_eq] at he
  simp only [List.mem_cons, List.mem_singleton, List.not_mem_nil, or_false] at he
  rcases he with rfl | rfl | rfl <;> rcases hb with hb | hb
  · exact ⟨0, 1, by decide, by decide, by decide, hb⟩
  · exact ⟨1, 0, by decide, by decide, by decide, hb⟩
  · exact ⟨0, 2, by decide, by decide, by decide, hb⟩
  · exact ⟨2, 0, by decide, by decide, by decide, hb⟩
  · exact ⟨1, 2, by decide, by decide, by decide, hb⟩
  · exact ⟨2, 1, by decide, by decide, by decide, hb⟩

theorem declared_sizes_of_wiring {α : Type} :
    ∀ s < 3, ∀ t < 3,
      ([.r s, .r t, .params s 0, .params s 1, .params s 3,
          .params t 0, .params t 1, .params t 3] : List BlockPtr).map
        (declaredSize (declareBlocks (⟨[], []⟩ : Problem α)).parameterBlocks)
      = Cost.parameter_block_sizes.map some := by
  rw [declareBlocks_parameterBlocks]
  decide


theorem Evaluate_reads_declared {α : Type} [LinearOrderedField α] (cam : CameraModel α)
    (fi fj : PointFeature α) (parameters parameters2 : Nat → Nat → α) (residuals : Nat → α)
    (jacobians : Option (Nat → Option (Nat → α)))
    (h : ∀ k < 8, ∀ i < Cost.parameter_block_sizes.getD k 0,
      parameters k i = parameters2 k i) :
    Cost.Evaluate cam fi fj parameters residuals jacobians
      = Cost.Evaluate cam fi fj parameters2 residuals jacobians := by
  have e0 : mapRowMajor3 (parameters 0) = mapRowMajor3 (parameters2 0) := by
    ext i j
    fin_cases i <;> fin_cases j <;> exact h 0 (by decide) _ (by decide)
  have e1 : mapRowMajor3 (parameters 1) = mapRowMajor3 (parameters2 1) := by
    ext i j
    fin_cases i <;> fin_cases j <;> exact h 1 (by decide) _ (by decide)
  have h20 : parameters 2 0 = parameters2 2 0 := h 2 (by decide) 0 (by decide)
  have h30 : parameters 3 0 = parameters2 3 0 := h 3 (by decide) 0 (by decide)
  have h31 : parameters 3 1 = parameters2 3 1 := h 3 (by decide) 1 (by decide)
  have h40 : parameters 4 0 = parameters2 4 0 := h 4 (by decide) 0 (by decide)
  have h41 : parameters 4 1 = parameters2 4 1 := h 4 (by decide) 1 (by decide)
  have h42 : parameters 4 2 = parameters2 4 2 := h 4 (by decide) 2 (by decide)
  have h50 : parameters 5 0 = parameters2 5 0 := h 5 (by decide) 0 (by decide)
  have h60 : parameters 6 0 = parameters2 6 0 := h 6 (by decide) 0 (by decide)
  have h61 : parameters 6 1 = parameters2 6 1 := h 6 (by decide) 1 (by decide)
  have h70 : parameters 7 0 = parameters2 7 0 := h 7 (by decide) 0 (by decide)
  have h71 : parameters 7 1 = parameters2 7 1 := h 7 (by decide) 1 (by decide)
  have h72 : parameters 7 2 = parameters2 7 2 := h 7 (by decide) 2 (by decide)
  simp only [Cost.Evaluate, e0, e1, h20, h30, h31, h40, h41, h42, h50, h60, h61, h70, h71, h72]

theorem writeJacobian_apply {α : Type} {n : Nat} (slot : Nat) (M : Matrix (Fin 2) (Fin n) α)
    (jacobians : Nat → Option (Nat → α)) (k : Nat) :
    writeJacobian slot M jacobians k
      = if k = slot then (jacobians slot).map (storeColMajor2 M) else jacobians k := by
  unfold writeJacobian
  cases h : jacobians slot with
  | none =>
    by_cases hk : k = slot
    · simp [hk, h]
    · simp [hk]
  | some J =>
    by_cases hk : k = slot
    · simp [hk, Function.update_apply]
    · simp [hk, Function.update_apply]

theorem Evaluate_jacobians {α : Type} [LinearOrderedField α] (cam : CameraModel α)
    (fi fj : PointFeature α) (parameters : Nat → Nat → α) :
    ∃ (M3 M6 : Matrix (Fin 2) (Fin 2) α) (M4 M7 : Matrix (Fin 2) (Fin 3) α),
      ∀ (residuals : Nat → α) (jacobians : Nat → Option (Nat → α)),
        (Cost.Evaluate cam fi fj parameters residuals (some jacobians)).2.2
          = some (writeJacobian 6 M6 (writeJacobian 7 M7
              (writeJacobian 4 M4 (writeJacobian 3 M3 jacobians)))) :=
  ⟨_, _, _, _, fun _ _ => rfl⟩


theorem declared_layout {α : Type} :
    ((declareBlocks (⟨[], []⟩ : Problem α)).parameterBlocks.map fun pb => pb.ptr).Nodup
    ∧ (∀ view < 3, ∀ index < paramsSize,
        ((declareBlocks (⟨[], []⟩ : Problem α)).parameterBlocks.filter
          (coversIndex view index)).length = 1)
    ∧ (∀ view < 3, intrinsicSlices (declareBlocks (⟨[], []⟩ : Problem α)).parameterBlocks view
        = [(0, 1), (1, 2), (3, 3)])
    ∧ (∀ view < 3,
        rotationDeclarations (declareBlocks (⟨[], []⟩ : Problem α)).parameterBlocks view
          = [(9, true)]) := by
  rw [declareBlocks_parameterBlocks]
  decide

/-- C9: the construction succeeds and every residual block is wired to exactly 8
parameter blocks, in the order (rotation of source, rotation of target, focal, centre,
distortion of source, focal, centre, distortion of target) for two views `s`, `t`;
slot by slot the size declared to the problem for the wired pointer equals the size
the cost function declares (9, 9, 1, 2, 3, 1, 2, 3; two residuals), and `Evaluate`
reads slot `k` only within that size. Each pointer is declared once; the declared
slices of each 6-entry intrinsic vector are `(offset, size) = (0, 1), (1, 2), (3, 3)`,
every index `0..5` lying in exactly one of them; each rotation is one block of 9
entries with a parameterization. -/
theorem C9_block_sizes_agree {α : Type} [LinearOrderedField α] (cam : CameraModel α)
    (intrinsics : Nat → EquiDistantRadialK3 α) (r : Nat → Mat3 α) (points : List (Vec3 α)) :
    ∃ problem : Problem α, buildProblem cam intrinsics r points = some problem
      ∧ (∀ rb ∈ problem.residualBlocks,
          (∃ s t : Nat, s < 3 ∧ t < 3
            ∧ rb.blocks = [.r s, .r t, .params s 0, .params s 1, .params s 3,
                .params t 0, .params t 1, .params t 3])
          ∧ rb.blocks.length = 8
          ∧ rb.blocks.map (declaredSize problem.parameterBlocks)
              = Cost.parameter_block_sizes.map some)
      ∧ Cost.parameter_block_sizes = [9, 9, 1, 2, 3, 1, 2, 3]
      ∧ Cost.num_residuals = 2
      ∧ (problem.parameterBlocks.map fun pb => pb.ptr).Nodup
      ∧ (∀ view < 3, ∀ index < paramsSize,
          (problem.parameterBlocks.filter (coversIndex view index)).length = 1)
      ∧ (∀ view < 3, intrinsicSlices problem.parameterBlocks view = [(0, 1), (1, 2), (3, 3)])
      ∧ (∀ view < 3, rotationDeclarations problem.parameterBlocks view = [(9, true)])
      ∧ ∀ (fi fj : PointFeature α) (parameters parameters2 : Nat → Nat → α)
          (residuals : Nat → α) (jacobians : Option (Nat → Option (Nat → α))),
          (∀ k < 8, ∀ i < Cost.parameter_block_sizes.getD k 0,
            parameters k i = parameters2 k i) →
          Cost.Evaluate cam fi fj parameters residuals jacobians
            = Cost.Evaluate cam fi fj parameters2 residuals jacobians := by
  obtain ⟨hnodup, hcover, hslices, hrot⟩ := @declared_layout α
  refine ⟨_, buildProblem_eq cam intrinsics r points, ?_, rfl, rfl, ?_, ?_, ?_, ?_, ?_⟩
  · intro rb hrb
    dsimp only at hrb ⊢
    obtain ⟨s, t, hs, ht, _, hb⟩ := residual_wiring cam intrinsics r points rb hrb
    refine ⟨⟨s, t, hs, ht, hb⟩, by rw [hb]; rfl, ?_⟩
    rw [hb]
    exact declared_sizes_of_wiring s hs t ht
  · dsimp only
    exact hnodup
  · dsimp only
    exact hcover
  · dsimp only
    exact hslices
  · dsimp only
    exact hrot
  · intro fi fj parameters parameters2 residuals jacobians h
    exact Evaluate_reads_declared cam fi fj parameters parameters2 residuals jacobians h


theorem mem_freeBlocks_declared {α : Type} (ptr : BlockPtr) :
    ptr ∈ freeBlocks (declareBlocks (⟨[], []⟩ : Problem α)).parameterBlocks
      ↔ ptr = .params 0 3 ∨ ptr = .params 1 3 ∨ ptr = .params 2 3 := by
  rw [declareBlocks_parameterBlocks]
  simp [freeBlocks]

theorem constant_declared {α : Type} :
    freeBlocks (declareBlocks (⟨[], []⟩ : Problem α)).parameterBlocks
        = [.params 0 3, .params 1 3, .params 2 3]
    ∧ (freeBlocks (declareBlocks (⟨[], []⟩ : Problem α)).parameterBlocks).map
        (declaredSize (declareBlocks (⟨[], []⟩ : Problem α)).parameterBlocks)
        = [some 3, some 3, some 3]
    ∧ ∀ pb ∈ (declareBlocks (⟨[], []⟩ : Problem α)).parameterBlocks,
        (pb.constant = true ↔
          pb.ptr ∈ [BlockPtr.params 0 0, .params 1 0, .params 2 0,
            .params 0 1, .params 1 1, .params 2 1, .r 0, .r 1, .r 2])
        ∧ (pb.constant = false ↔ pb.ptr ∈ [BlockPtr.params 0 3, .params 1 3, .params 2 3]) := by
  rw [declareBlocks_parameterBlocks]
  decide

/-- C10: after the construction the free blocks are exactly the three distortion
triples `params[v] + 3` (every focal scalar, principal-point pair and rotation block
is constant); in every residual block a free block sits only in slot 4 or slot 7;
and `Evaluate`, asked for Jacobians, overwrites the arrays of slots 4 and 7 with a
`2 x 3` matrix that depends on the cost and the parameters only, while it leaves the
arrays of slots 0, 1, 2 and 5 as they were. -/
theorem C10_free_blocks_have_jacobians {α : Type} [LinearOrderedField α]
    (cam : CameraModel α) (intrinsics : Nat → EquiDistantRadialK3 α) (r : Nat → Mat3 α)
    (points : List (Vec3 α)) :
    ∃ problem : Problem α, buildProblem cam intrinsics r points = some problem
      ∧ freeBlocks problem.parameterBlocks = [.params 0 3, .params 1 3, .params 2 3]
      ∧ (freeBlocks problem.parameterBlocks).map (declaredSize problem.parameterBlocks)
          = [some 3, some 3, some 3]
      ∧ (∀ pb ∈ problem.parameterBlocks,
          (pb.constant = true ↔
            pb.ptr ∈ [BlockPtr.params 0 0, .params 1 0, .params 2 0,
              .params 0 1, .params 1 1, .params 2 1, .r 0, .r 1, .r 2])
          ∧ (pb.constant = false ↔
            pb.ptr ∈ [BlockPtr.params 0 3, .params 1 3, .params 2 3]))
      ∧ (∀ rb ∈ problem.residualBlocks, ∀ (k : Nat) (ptr : BlockPtr),
          rb.blocks[k]? = some ptr → ptr ∈ freeBlocks problem.parameterBlocks →
            k = 4 ∨ k = 7)
      ∧ ∀ rb ∈ problem.residualBlocks, ∀ parameters : Nat → Nat → α,
          ∃ M4 M7 : Matrix (Fin 2) (Fin 3) α,
            ∀ (residuals : Nat → α) (jacobians : Nat → Option (Nat → α)),
              ∃ out : Nat → Option (Nat → α),
                (Cost.Evaluate cam rb.fi rb.fj parameters residuals (some jacobians)).2.2
                    = some out
                ∧ out 4 = (jacobians 4).map (storeColMajor2 M4)
                ∧ out 7 = (jacobians 7).map (storeColMajor2 M7)
                ∧ out 0 = jacobians 0 ∧ out 1 = jacobians 1
                ∧ out 2 = jacobians 2 ∧ out 5 = jacobians 5 := by
  obtain ⟨hfree, hsize, hconst⟩ := @constant_declared α
  refine ⟨_, buildProblem_eq cam intrinsics r points, ?_, ?_, ?_, ?_, ?_⟩
  · dsimp only
    exact hfree
  · dsimp only
    exact hsize
  · dsimp only
    exact hconst
  · intro rb hrb k ptr hk hptr
    dsimp only at hrb hptr
    obtain ⟨s, t, _, _, _, hb⟩ := residual_wiring cam intrinsics r points rb hrb
    have hp := (mem_freeBlocks_declared ptr).mp hptr
    rw [hb] at hk
    have hk8 : k < 8 := by
      by_contra hge
      have : ([BlockPtr.r s, .r t, .params s 0, .params s 1, .params s 3,
          .params t 0, .params t 1, .params t 3] : List BlockPtr)[k]? = none :=
        List.getElem?_eq_none (by simp; omega)
      rw [this] at hk
      cases hk
    interval_cases k <;> simp at hk <;> subst hk <;> simp at hp <;> simp
  · intro rb _ parameters
    obtain ⟨M3, M6, M4, M7, hJ⟩ := Evaluate_jacobians cam rb.fi rb.fj parameters
    refine ⟨M4, M7, fun residuals jacobians => ⟨_, hJ residuals jacobians, ?_⟩⟩
    simp [writeJacobian_apply]


/-! ## Concrete evaluations of the statements above -/

/-- C1 at a concrete input: the sample camera, the identity and a quarter turn, the
observations `(1, 2)` and `(5, 7)`: the first residual is `-2 - 5 = -7`, and entry 5 of
the residual array keeps its old value. -/
theorem C1_evaluate_residual_witness :
    (Cost.Evaluate sampleCamera ⟨1, 2⟩ ⟨5, 7⟩
        (parameterSlots identityBlock quarterTurnBlock (fun _ => 1) (fun _ => 0) (fun _ => 0)
          (fun _ => 1) (fun _ => 0) (fun _ => 0)) (fun _ => 9) none).2.1 0 = -7
    ∧ (Cost.Evaluate sampleCamera ⟨1, 2⟩ ⟨5, 7⟩
        (parameterSlots identityBlock quarterTurnBlock (fun _ => 1) (fun _ => 0) (fun _ => 0)
          (fun _ => 1) (fun _ => 0) (fun _ => 0)) (fun _ => 9) none).2.1 5 = 9 := by
  have h := C1_evaluate_residual sampleCamera ⟨1, 2⟩ ⟨5, 7⟩
    (parameterSlots identityBlock quarterTurnBlock (fun _ => 1) (fun _ => 0) (fun _ => 0)
      (fun _ => 1) (fun _ => 0) (fun _ => 0)) (fun _ => 9) none
  refine ⟨(h.2.1 0).trans ?_, h.2.2 5 (by decide)⟩
  have hI : mapRowMajor3 identityBlock = 1 := by
    ext i j
    fin_cases i <;> fin_cases j <;> simp [mapRowMajor3, identityBlock]
  have hQ : mapRowMajor3 quarterTurnBlock = !![0, -1, 0; 1, 0, 0; 0, 0, 1] := by
    ext i j
    fin_cases i <;> fin_cases j <;>
      simp [mapRowMajor3, quarterTurnBlock, Matrix.vecHead, Matrix.vecTail]
  simp only [predictedMinusObserved, parameterSlots, hI, hQ]
  simp [sampleCamera, cameraOfBlocks, Matrix.mulVec, Matrix.dotProduct, Fin.sum_univ_three,
    Matrix.vecHead, Matrix.vecTail]
  norm_num

/-- C6 at a concrete input: entry `(3, 2)` is `-1`, entry `(4, 1)` is `0`, and offset 30
of the output array keeps its old value. -/
theorem C6_jacobian_constant_pattern_witness :
    jacobianMatrix (SO3Parameterization.ComputeJacobian (fun _ => (0 : ℝ)) (fun _ => 5)).2 3 2
        = -1
    ∧ jacobianMatrix (SO3Parameterization.ComputeJacobian (fun _ => (0 : ℝ)) (fun _ => 5)).2 4 1
        = 0
    ∧ (SO3Parameterization.ComputeJacobian (fun _ => (0 : ℝ)) (fun _ => 5)).2 30 = 5 := by
  have h := C6_jacobian_constant_pattern (fun _ => (0 : ℝ)) (fun _ => 5)
  refine ⟨?_, h.2.2.2.2.2.2.1 4 (Or.inr (Or.inl rfl)) 1, h.2.2.2.2.2.2.2.1 30 (by decide)⟩
  rw [h.2.1]
  simp [jacobianPattern, fin9_val.1]

theorem sample_projected_view2 :
    projectedOf sampleCamera sampleIntrinsics sampleRotations samplePoints 2
      = [(0, 0), (2, 1)] := by
  have h : ∀ pt : Vec3 ℚ,
      passesVisibility sampleCamera (sampleIntrinsics 2) (sampleRotations 2) pt
        = passesVisibility sampleCamera (sampleIntrinsics 1) (sampleRotations 1) pt := by
    intro pt
    simp [passesVisibility, sampleIntrinsics, sampleRotations]
  simp [projectedOf, samplePoints, assignIds, h, sample_passes_view1, abs_le]

theorem sample_pwMatches :
    pwMatchesOf sampleCamera sampleIntrinsics sampleRotations samplePoints
      = [((0, 1), [⟨0, 0, 2 / 5⟩, ⟨2, 1, 2 / 5⟩]), ((0, 2), [⟨0, 0, 2 / 5⟩, ⟨2, 1, 2 / 5⟩]),
          ((1, 2), [⟨0, 0, 2 / 5⟩, ⟨1, 1, 2 / 5⟩])] := by
  rw [pwMatchesOf_eq, sample_projected_view0, sample_projected_view1, sample_projected_view2,
    sample_matches_01]
  simp [matchViews, mapFind, intLt]

/-- C8 at the concrete scene: six matches, twelve residual blocks. -/
theorem C8_two_residuals_per_match_witness :
    ∃ problem : Problem ℚ,
      buildProblem sampleCamera sampleIntrinsics sampleRotations samplePoints = some problem
      ∧ problem.residualBlocks.length = 12 := by
  obtain ⟨problem, h1, _, _, h4⟩ :=
    C8_two_residuals_per_match sampleCamera sampleIntrinsics sampleRotations samplePoints
  refine ⟨problem, h1, ?_⟩
  rw [h4, sample_pwMatches]
  rfl

/-- C9 at the concrete scene: every residual block has eight slots whose declared
sizes are those of the cost function. -/
theorem C9_block_sizes_agree_witness :
    ∃ problem : Problem ℚ,
      buildProblem sampleCamera sampleIntrinsics sampleRotations samplePoints = some problem
      ∧ ∀ rb ∈ problem.residualBlocks,
          rb.blocks.map (declaredSize problem.parameterBlocks)
            = [some 9, some 9, some 1, some 2, some 3, some 1, some 2, some 3] := by
  obtain ⟨problem, h1, h2, _⟩ :=
    C9_block_sizes_agree sampleCamera sampleIntrinsics sampleRotations samplePoints
  exact ⟨problem, h1, fun rb hrb => (h2 rb hrb).2.2⟩

/-- C10 at the concrete scene: the free blocks are the three distortion triples. -/
theorem C10_free_blocks_have_jacobians_witness :
    ∃ problem : Problem ℚ,
      buildProblem sampleCamera sampleIntrinsics sampleRotations samplePoints = some problem
      ∧ freeBlocks problem.parameterBlocks = [.params 0 3, .params 1 3, .params 2 3]
      ∧ ∀ rb ∈ problem.residualBlocks, ∀ (k : Nat) (ptr : BlockPtr),
          rb.blocks[k]? = some ptr → ptr ∈ freeBlocks problem.parameterBlocks →
            k = 4 ∨ k = 7 := by
  obtain ⟨problem, h1, h2, _, _, h4, _⟩ :=
    C10_free_blocks_have_jacobians sampleCamera sampleIntrinsics sampleRotations samplePoints
  exact ⟨problem, h1, h2, h4⟩


/-! ## Composition of retractions -/

theorem update_quarter_turn_first_axis :
    toRotationMatrix Real.sin Real.cos (norm Real.sqrt ![Real.pi / 2, 0, 0])
        (normalize Real.sqrt ![Real.pi / 2, 0, 0])
      = !![1, 0, 0; 0, 0, -1; 0, 1, 0] := by
  have hpos : (0 : ℝ) < Real.pi / 2 := by positivity
  have hz : squaredNorm ![Real.pi / 2, 0, 0] = Real.pi / 2 * (Real.pi / 2) := by
    simp [squaredNorm]
  have hs : Real.sqrt (Real.pi / 2 * (Real.pi / 2)) = Real.pi / 2 :=
    Real.sqrt_mul_self hpos.le
  have hgt : squaredNorm ![Real.pi / 2, 0, 0] > 0 := by
    rw [hz]; positivity
  have hn : normalize Real.sqrt ![Real.pi / 2, 0, 0] = ![1, 0, 0] := by
    simp only [normalize, hgt, if_true]
    rw [hz, hs]
    funext i
    fin_cases i <;> simp [hpos.ne.symm]
  have ha : norm Real.sqrt ![Real.pi / 2, 0, 0] = Real.pi / 2 := by
    rw [norm, hz, hs]
  rw [hn, ha]
  ext i j
  fin_cases i <;> fin_cases j <;>
    simp [toRotationMatrix, Matrix.vecHead, Matrix.vecTail]

theorem update_quarter_turn_second_axis :
    toRotationMatrix Real.sin Real.cos (norm Real.sqrt ![0, Real.pi / 2, 0])
        (normalize Real.sqrt ![0, Real.pi / 2, 0])
      = !![0, 0, 1; 0, 1, 0; -1, 0, 0] := by
  have hpos : (0 : ℝ) < Real.pi / 2 := by positivity
  have hz : squaredNorm ![0, Real.pi / 2, 0] = Real.pi / 2 * (Real.pi / 2) := by
    simp [squaredNorm]
  have hs : Real.sqrt (Real.pi / 2 * (Real.pi / 2)) = Real.pi / 2 :=
    Real.sqrt_mul_self hpos.le
  have hgt : squaredNorm ![0, Real.pi / 2, 0] > 0 := by
    rw [hz]; positivity
  have hn : normalize Real.sqrt ![0, Real.pi / 2, 0] = ![0, 1, 0] := by
    simp only [normalize, hgt, if_true]
    rw [hz, hs]
    funext i
    fin_cases i <;> simp [hpos.ne.symm]
  have ha : norm Real.sqrt ![0, Real.pi / 2, 0] = Real.pi / 2 := by
    rw [norm, hz, hs]
  rw [hn, ha]
  ext i j
  fin_cases i <;> fin_cases j <;>
    simp [toRotationMatrix, Matrix.vecHead, Matrix.vecTail]

theorem normalize_third_zero (d : Vec3 ℝ) (h : d 2 = 0) : normalize Real.sqrt d 2 = 0 := by
  unfold normalize
  split <;> simp [h]

theorem update_symmetric_of_third_zero (angle : ℝ) (axis : Vec3 ℝ) (h : axis 2 = 0) :
    toRotationMatrix Real.sin Real.cos angle axis 0 1
      = toRotationMatrix Real.sin Real.cos angle axis 1 0 := by
  simp [toRotationMatrix, h]


theorem expUpdate_symmetric_of_third_zero (delta : Nat → ℝ) (h : delta 2 = 0) :
    expUpdate Real.sqrt Real.sin Real.cos delta 0 1
      = expUpdate Real.sqrt Real.sin Real.cos delta 1 0 :=
  update_symmetric_of_third_zero _ _ (normalize_third_zero _ (by simpa using h))

theorem Plus_matrix (x delta out : Nat → ℝ) :
    mapRowMajor3 (SO3Parameterization.Plus Real.sqrt Real.sin Real.cos x delta out).2
      = expUpdate Real.sqrt Real.sin Real.cos delta * mapRowMajor3 x := by
  simp only [SO3Parameterization.Plus, mapRowMajor3_storeRowMajor3, expUpdate]

/-- C12: two successive retractions compose the increments,
`Plus(Plus(R, d1), d2) = Exp(d2) * Exp(d1) * R` for all `R`, `d1`, `d2`; and for the
identity rotation with quarter turns about the first and the second axis the result
differs from the single retraction `Plus(R, d1 + d2)`, whatever the output arrays
held before. -/
theorem C12_retraction_not_additive :
    (∀ x d1 d2 out1 out2 : Nat → ℝ,
      mapRowMajor3 (SO3Parameterization.Plus Real.sqrt Real.sin Real.cos
          (SO3Parameterization.Plus Real.sqrt Real.sin Real.cos x d1 out1).2 d2 out2).2
        = expUpdate Real.sqrt Real.sin Real.cos d2
            * expUpdate Real.sqrt Real.sin Real.cos d1 * mapRowMajor3 x)
    ∧ ∃ x d1 d2 : Nat → ℝ, IsRotation (mapRowMajor3 x)
      ∧ d1 = (fun k => if k = 0 then Real.pi / 2 else 0)
      ∧ d2 = (fun k => if k = 1 then Real.pi / 2 else 0)
      ∧ ∀ out1 out2 out3 : Nat → ℝ,
        mapRowMajor3 (SO3Parameterization.Plus Real.sqrt Real.sin Real.cos
            (SO3Parameterization.Plus Real.sqrt Real.sin Real.cos x d1 out1).2 d2 out2).2
          ≠ mapRowMajor3 (SO3Parameterization.Plus Real.sqrt Real.sin Real.cos x
              (fun k => d1 k + d2 k) out3).2 := by
  constructor
  · intro x d1 d2 out1 out2
    rw [Plus_matrix, Plus_matrix, Matrix.mul_assoc]
  · have hI : mapRowMajor3 (fun k => if k = 0 ∨ k = 4 ∨ k = 8 then (1 : ℝ) else 0) = 1 := by
      ext i j
      fin_cases i <;> fin_cases j <;> simp [mapRowMajor3]
    refine ⟨fun k => if k = 0 ∨ k = 4 ∨ k = 8 then (1 : ℝ) else 0, _, _, ?_, rfl, rfl, ?_⟩
    · rw [hI]
      exact ⟨by simp, by simp⟩
    · intro out1 out2 out3 h
      rw [Plus_matrix, Plus_matrix, Plus_matrix, hI, Matrix.mul_one, Matrix.mul_one] at h
      have e1 : expUpdate Real.sqrt Real.sin Real.cos
          (fun k => if k = 0 then Real.pi / 2 else 0) = !![1, 0, 0; 0, 0, -1; 0, 1, 0] := by
        simp only [expUpdate]
        simpa using update_quarter_turn_first_axis
      have e2 : expUpdate Real.sqrt Real.sin Real.cos
          (fun k => if k = 1 then Real.pi / 2 else 0) = !![0, 0, 1; 0, 1, 0; -1, 0, 0] := by
        simp only [expUpdate]
        simpa using update_quarter_turn_second_axis
      have hsym := expUpdate_symmetric_of_third_zero
        (fun k => (if k = 0 then Real.pi / 2 else 0) + (if k = 1 then Real.pi / 2 else (0 : ℝ)))
        (by simp)
      rw [← h, e1, e2] at hsym
      simp [Matrix.mul_apply, Fin.sum_univ_three, Matrix.vecHead, Matrix.vecTail] at hsym


/-! ## Jacobian policy and storage of `Cost::Evaluate` -/

theorem Evaluate_jacobians_eq {α : Type} [LinearOrderedField α] (cam : CameraModel α)
    (fi fj : PointFeature α) (parameters : Nat → Nat → α) (residuals : Nat → α)
    (jacobians : Nat → Option (Nat → α)) :
    (Cost.Evaluate cam fi fj parameters residuals (some jacobians)).2.2
      = some (writeJacobian 6 (Cost.jacobianSlot6 cam fi parameters)
          (writeJacobian 7 (Cost.jacobianSlot7 cam fi parameters)
            (writeJacobian 4 (Cost.jacobianSlot4 cam fi parameters)
              (writeJacobian 3 (Cost.jacobianSlot3 cam fi parameters) jacobians)))) :=
  rfl

theorem Evaluate_residuals_none {α : Type} [LinearOrderedField α] (cam : CameraModel α)
    (fi fj : PointFeature α) (parameters : Nat → Nat → α) (residuals : Nat → α)
    (jacobians : Option (Nat → Option (Nat → α))) :
    (Cost.Evaluate cam fi fj parameters residuals jacobians).2.1
      = (Cost.Evaluate cam fi fj parameters residuals none).2.1 := by
  cases jacobians <;> rfl

theorem storeColMajor2_apply {α : Type} {n : Nat} (M : Matrix (Fin 2) (Fin n) α)
    (J : Nat → α) (r : Fin 2) (c : Fin n) :
    storeColMajor2 M J (c.val * 2 + r.val) = M r c := by
  have hr := r.isLt
  have hc := c.isLt
  have hk : c.val * 2 + r.val < 2 * n := by omega
  simp only [storeColMajor2, hk, dif_pos]
  congr 1
  · apply Fin.ext
    show (c.val * 2 + r.val) % 2 = r.val
    omega
  · apply Fin.ext
    show (c.val * 2 + r.val) / 2 = c.val
    omega

theorem storeColMajor2_beyond {α : Type} {n : Nat} (M : Matrix (Fin 2) (Fin n) α)
    (J : Nat → α) (k : Nat) (hk : 2 * n ≤ k) : storeColMajor2 M J k = J k := by
  have h : ¬ k < 2 * n := by omega
  simp [storeColMajor2, h]


theorem writeJacobians_apply {α : Type} (M3 M6 : Matrix (Fin 2) (Fin 2) α)
    (M4 M7 : Matrix (Fin 2) (Fin 3) α) (jacobians : Nat → Option (Nat → α)) (k : Nat) :
    writeJacobian 6 M6 (writeJacobian 7 M7 (writeJacobian 4 M4 (writeJacobian 3 M3 jacobians))) k
      = if k = 3 then (jacobians 3).map (storeColMajor2 M3)
        else if k = 4 then (jacobians 4).map (storeColMajor2 M4)
        else if k = 6 then (jacobians 6).map (storeColMajor2 M6)
        else if k = 7 then (jacobians 7).map (storeColMajor2 M7)
        else jacobians k := by
  by_cases h3 : k = 3
  · subst h3; simp [writeJacobian_apply]
  by_cases h4 : k = 4
  · subst h4; simp [writeJacobian_apply]
  by_cases h6 : k = 6
  · subst h6; simp [writeJacobian_apply]
  by_cases h7 : k = 7
  · subst h7; simp [writeJacobian_apply]
  simp [writeJacobian_apply, h3, h4, h6, h7]

theorem Evaluate_stores_column_major {α : Type} [LinearOrderedField α] (cam : CameraModel α)
    (fi fj : PointFeature α) (parameters : Nat → Nat → α) (residuals : Nat → α)
    (jacobians : Nat → Option (Nat → α)) :
    ∃ out : Nat → Option (Nat → α),
      (Cost.Evaluate cam fi fj parameters residuals (some jacobians)).2.2 = some out
      ∧ (∀ J, jacobians 3 = some J → ∃ J2, out 3 = some J2
          ∧ ∀ (r : Fin 2) (c : Fin 2),
              J2 (c.val * 2 + r.val) = Cost.jacobianSlot3 cam fi parameters r c)
      ∧ (∀ J, jacobians 4 = some J → ∃ J2, out 4 = some J2
          ∧ ∀ (r : Fin 2) (c : Fin 3),
              J2 (c.val * 2 + r.val) = Cost.jacobianSlot4 cam fi parameters r c)
      ∧ (∀ J, jacobians 6 = some J → ∃ J2, out 6 = some J2
          ∧ ∀ (r : Fin 2) (c : Fin 2),
              J2 (c.val * 2 + r.val) = Cost.jacobianSlot6 cam fi parameters r c)
      ∧ (∀ J, jacobians 7 = some J → ∃ J2, out 7 = some J2
          ∧ ∀ (r : Fin 2) (c : Fin 3),
              J2 (c.val * 2 + r.val) = Cost.jacobianSlot7 cam fi parameters r c) := by
  refine ⟨_, Evaluate_jacobians_eq cam fi fj parameters residuals jacobians, ?_, ?_, ?_, ?_⟩
  · intro J hJ
    exact ⟨_, by simp [writeJacobian_apply, hJ], fun r c => storeColMajor2_apply _ J r c⟩
  · intro J hJ
    exact ⟨_, by simp [writeJacobian_apply, hJ], fun r c => storeColMajor2_apply _ J r c⟩
  · intro J hJ
    exact ⟨_, by simp [writeJacobian_apply, hJ], fun r c => storeColMajor2_apply _ J r c⟩
  · intro J hJ
    exact ⟨_, by simp [writeJacobian_apply, hJ], fun r c => storeColMajor2_apply _ J r c⟩

/-- C11: `Evaluate` returns true and writes the same residual whatever Jacobians are
requested; with a null `jacobians` array nothing else is written; otherwise only the
arrays of slots 3, 4, 6 and 7 are written, each only when its pointer is non-null (a
null pointer stays null) and only within its `2 x n` block, and every other array, in
particular those of slots 0, 1, 2 and 5, is left as it was even when a non-null
pointer is supplied. -/
theorem C11_jacobian_policy {α : Type} [LinearOrderedField α] (cam : CameraModel α)
    (fi fj : PointFeature α) (parameters : Nat → Nat → α) (residuals : Nat → α) :
    (∀ jacobians : Option (Nat → Option (Nat → α)),
      (Cost.Evaluate cam fi fj parameters residuals jacobians).1 = true
      ∧ (Cost.Evaluate cam fi fj parameters residuals jacobians).2.1
          = (Cost.Evaluate cam fi fj parameters residuals none).2.1)
    ∧ (Cost.Evaluate cam fi fj parameters residuals none).2.2 = none
    ∧ ∀ jacobians : Nat → Option (Nat → α), ∃ out : Nat → Option (Nat → α),
      (Cost.Evaluate cam fi fj parameters residuals (some jacobians)).2.2 = some out
      ∧ (∀ k : Nat, k ≠ 3 → k ≠ 4 → k ≠ 6 → k ≠ 7 → out k = jacobians k)
      ∧ (∀ k : Nat, jacobians k = none → out k = none)
      ∧ out 3 = (jacobians 3).map (storeColMajor2 (Cost.jacobianSlot3 cam fi parameters))
      ∧ out 4 = (jacobians 4).map (storeColMajor2 (Cost.jacobianSlot4 cam fi parameters))
      ∧ out 6 = (jacobians 6).map (storeColMajor2 (Cost.jacobianSlot6 cam fi parameters))
      ∧ out 7 = (jacobians 7).map (storeColMajor2 (Cost.jacobianSlot7 cam fi parameters))
      ∧ ∀ (k : Nat) (J : Nat → α), jacobians k = some J →
          ∃ J2, out k = some J2 ∧ ∀ i : Nat, 6 ≤ i → J2 i = J i := by
  refine ⟨fun jacobians => ⟨Evaluate_fst cam fi fj parameters residuals jacobians,
    Evaluate_residuals_none cam fi fj parameters residuals jacobians⟩, rfl, ?_⟩
  intro jacobians
  refine ⟨_, Evaluate_jacobians_eq cam fi fj parameters residuals jacobians,
    ?_, ?_, ?_, ?_, ?_, ?_, ?_⟩
  · intro k h3 h4 h6 h7
    simp [writeJacobian_apply, h3, h4, h6, h7]
  · intro k hk
    rw [writeJacobians_apply]
    split_ifs with h3 h4 h6 h7
    · subst h3; rw [hk]; rfl
    · subst h4; rw [hk]; rfl
    · subst h6; rw [hk]; rfl
    · subst h7; rw [hk]; rfl
    · exact hk
  · simp [writeJacobian_apply]
  · simp [writeJacobian_apply]
  · simp [writeJacobian_apply]
  · simp [writeJacobian_apply]
  · intro k J hJ
    rw [writeJacobians_apply]
    split_ifs with h3 h4 h6 h7
    · subst h3
      exact ⟨_, by rw [hJ]; rfl, fun i hi => storeColMajor2_beyond _ J i (by omega)⟩
    · subst h4
      exact ⟨_, by rw [hJ]; rfl, fun i hi => storeColMajor2_beyond _ J i (by omega)⟩
    · subst h6
      exact ⟨_, by rw [hJ]; rfl, fun i hi => storeColMajor2_beyond _ J i (by omega)⟩
    · subst h7
      exact ⟨_, by rw [hJ]; rfl, fun i hi => storeColMajor2_beyond _ J i (by omega)⟩
    · exact ⟨J, hJ, fun _ _ => rfl⟩

/-- C11 at a concrete input: arrays supplied for slots 0 and 3 only; the array of
slot 0 comes back unchanged and the null pointer of slot 4 stays null. -/
theorem C11_jacobian_policy_witness :
    sampleJacobians 4 = none
    ∧ ∃ out : Nat → Option (Nat → ℚ),
      (Cost.Evaluate sampleCamera ⟨1, 2⟩ ⟨5, 7⟩ sampleParameters (fun _ => 9)
        (some sampleJacobians)).2.2 = some out
      ∧ out 0 = some (fun _ => 5) ∧ out 4 = none := by
  have h4 : sampleJacobians 4 = none := by simp [sampleJacobians]
  obtain ⟨out, hout, hother, hnull, _⟩ :=
    (C11_jacobian_policy sampleCamera ⟨1, 2⟩ ⟨5, 7⟩ sampleParameters (fun _ => 9)).2.2
      sampleJacobians
  refine ⟨h4, out, hout, ?_, hnull 4 h4⟩
  rw [hother 0 (by decide) (by decide) (by decide) (by decide)]
  simp [sampleJacobians]

theorem sample_jacobianSlot3 :
    Cost.jacobianSlot3 sampleCamera ⟨1, 2⟩ sampleParameters = !![0, 1; -1, 0] := by
  have hI : mapRowMajor3 identityBlock = 1 := by
    ext i j
    fin_cases i <;> fin_cases j <;> simp [mapRowMajor3, identityBlock]
  have hQ : mapRowMajor3 quarterTurnBlock = !![0, -1, 0; 1, 0, 0; 0, 0, 1] := by
    ext i j
    fin_cases i <;> fin_cases j <;>
      simp [mapRowMajor3, quarterTurnBlock, Matrix.vecHead, Matrix.vecTail]
  simp only [Cost.jacobianSlot3, Cost.relativePose, sampleParameters, parameterSlots, hI, hQ,
    sampleCamera]
  ext i j
  fin_cases i <;> fin_cases j <;>
    simp [Matrix.mul_apply, Fin.sum_univ_three, Matrix.vecHead, Matrix.vecTail]

/-- C13 at a failing input: with the sample camera, the identity and a quarter turn
and an array supplied for slot 3, the computed `2 x 2` matrix is `M = [0, 1; -1, 0]`
and the array comes back holding `0, -1, 1, 0`: offset `c * 2 + r` holds `M(r, c)`, so
offset `0 * 2 + 1` holds `M(1, 0) = -1` where the row-major order of the solver
interface wants `M(0, 1) = 1`. -/
theorem C13_storage_is_column_major :
    ∃ (out : Nat → Option (Nat → ℚ)) (J : Nat → ℚ),
      (Cost.Evaluate sampleCamera ⟨1, 2⟩ ⟨5, 7⟩ sampleParameters (fun _ => 9)
        (some sampleJacobians)).2.2 = some out
      ∧ out 3 = some J
      ∧ Cost.jacobianSlot3 sampleCamera ⟨1, 2⟩ sampleParameters = !![0, 1; -1, 0]
      ∧ J 0 = 0 ∧ J 1 = -1 ∧ J 2 = 1 ∧ J 3 = 0
      ∧ J (0 * 2 + 1) ≠ Cost.jacobianSlot3 sampleCamera ⟨1, 2⟩ sampleParameters 0 1 := by
  refine ⟨_, storeColMajor2 (Cost.jacobianSlot3 sampleCamera ⟨1, 2⟩ sampleParameters)
      (fun _ => 5),
    Evaluate_jacobians_eq sampleCamera ⟨1, 2⟩ ⟨5, 7⟩ sampleParameters (fun _ => 9)
      sampleJacobians, ?_, sample_jacobianSlot3, ?_, ?_, ?_, ?_, ?_⟩
  · simp [writeJacobian_apply, sampleJacobians]
  · rw [sample_jacobianSlot3]; simp [storeColMajor2]
  · rw [sample_jacobianSlot3]; simp [storeColMajor2]
  · rw [sample_jacobianSlot3]; simp [storeColMajor2]
  · rw [sample_jacobianSlot3]; simp [storeColMajor2]
  · rw [sample_jacobianSlot3]; simp [storeColMajor2]; norm_num


/-! ## Feature ids are valid positions -/

theorem assignIds_map_snd {β : Type} (passes : β → Bool) (pts : List β) (index next : Nat) :
    (assignIds passes pts index next).map Prod.snd = List.range' next (pts.countP passes) := by
  induction pts generalizing index next with
  | nil => simp [assignIds]
  | cons pt rest ih =>
    simp only [assignIds, List.countP_cons]
    by_cases hp : passes pt = true
    · simp only [hp, if_true, List.map_cons, ih, List.range'_succ]
    · simp only [hp, Bool.false_eq_true, if_false, ih, Nat.add_zero]

theorem assignIds_keys_increasing {β : Type} (passes : β → Bool) (pts : List β)
    (index next : Nat) :
    (assignIds passes pts index next).Pairwise (fun x y => x.1 < y.1) := by
  induction pts generalizing index next with
  | nil => simp [assignIds]
  | cons pt rest ih =>
    simp only [assignIds]
    split
    · refine List.pairwise_cons.mpr ⟨fun e he => ?_, ih _ _⟩
      exact assignIds_key_ge passes rest (index + 1) (next + 1) e he
    · exact ih _ _

theorem filter_getElem_countP {β : Type} (passes : β → Bool) (pts : List β) (q : Nat) (pt : β)
    (hq : pts[q]? = some pt) (hp : passes pt = true) :
    (pts.filter passes)[(pts.take q).countP passes]? = some pt := by
  induction pts generalizing q with
  | nil => simp at hq
  | cons x rest ih =>
    cases q with
    | zero =>
      simp only [List.getElem?_cons_zero, Option.some.injEq] at hq
      subst hq
      simp [List.filter_cons, hp]
    | succ q =>
      simp only [List.getElem?_cons_succ] at hq
      simp only [List.take_succ_cons, List.countP_cons, List.filter_cons]
      by_cases hx : passes x = true
      · simp only [hx, if_true, List.getElem?_cons_succ]
        exact ih q hq
      · simp only [hx, Bool.false_eq_true, if_false, Nat.add_zero]
        exact ih q hq

theorem countP_take_lt_take {β : Type} (passes : β → Bool) (pts : List β) (q1 q2 : Nat)
    (pt : β) (hlt : q1 < q2) (hq : pts[q1]? = some pt) (hp : passes pt = true) :
    (pts.take q1).countP passes < (pts.take q2).countP passes := by
  have h1 : (pts.take q2)[q1]? = some pt := by
    rw [List.getElem?_take_of_lt hlt]
    exact hq
  have h2 := countP_take_lt passes (pts.take q2) q1 pt h1 hp
  rw [List.take_take, Nat.min_eq_left hlt.le] at h2
  exact h2

theorem assignIds_injective {β : Type} (passes : β → Bool) (pts : List β) (p q a : Nat)
    (hp : mapFind intLt p (assignIds passes pts 0 0) = some a)
    (hq : mapFind intLt q (assignIds passes pts 0 0) = some a) : p = q := by
  obtain ⟨pt1, h1, hp1, ha1⟩ := (mapFind_assignIds_some passes pts 0 p a).mp hp
  obtain ⟨pt2, h2, hp2, ha2⟩ := (mapFind_assignIds_some passes pts 0 q a).mp hq
  rcases Nat.lt_trichotomy p q with h | h | h
  · have := countP_take_lt_take passes pts p q pt1 h h1 hp1
    omega
  · exact h
  · have := countP_take_lt_take passes pts q p pt2 h h2 hp2
    omega

theorem matchViews_increasing {β : Type} (pa pb : β → Bool) (pts : List β) :
    (matchViews (assignIds pa pts 0 0) (assignIds pb pts 0 0)).Pairwise
      (fun m1 m2 => m1._i < m2._i ∧ m1._j < m2._j) := by
  rw [matchViews_eq, List.pairwise_filterMap]
  refine List.Pairwise.imp_of_mem ?_ (assignIds_keys_increasing pa pts 0 0)
  intro x y hx hy hxy m1 hm1 m2 hm2
  obtain ⟨k1, a1⟩ := x
  obtain ⟨k2, a2⟩ := y
  simp only [Option.mem_def, Option.map_eq_some'] at hm1 hm2
  obtain ⟨b1, hb1, rfl⟩ := hm1
  obtain ⟨b2, hb2, rfl⟩ := hm2
  have ha1 := (mem_assignIds_iff pa pts 0 0 k1 a1).mp hx
  have ha2 := (mem_assignIds_iff pa pts 0 0 k2 a2).mp hy
  obtain ⟨pt1, h1, hp1, rfl⟩ := (mapFind_assignIds_some pa pts 0 k1 a1).mp ha1
  obtain ⟨_, _, _, rfl⟩ := (mapFind_assignIds_some pa pts 0 k2 a2).mp ha2
  obtain ⟨pt3, h3, hp3, rfl⟩ := (mapFind_assignIds_some pb pts 0 k1 b1).mp hb1
  obtain ⟨_, _, _, rfl⟩ := (mapFind_assignIds_some pb pts 0 k2 b2).mp hb2
  simp only [Nat.zero_add]
  exact ⟨countP_take_lt_take pa pts k1 k2 pt1 hxy h1 hp1,
    countP_take_lt_take pb pts k1 k2 pt3 hxy h3 hp3⟩

theorem matchViews_nodup {β : Type} (pa pb : β → Bool) (pts : List β) :
    ((matchViews (assignIds pa pts 0 0) (assignIds pb pts 0 0)).map fun m => m._i).Nodup
    ∧ ((matchViews (assignIds pa pts 0 0) (assignIds pb pts 0 0)).map fun m => m._j).Nodup := by
  have h := matchViews_increasing pa pb pts
  constructor
  · rw [List.Nodup, List.pairwise_map]
    exact h.imp fun hlt => Nat.ne_of_lt hlt.1
  · rw [List.Nodup, List.pairwise_map]
    exact h.imp fun hlt => Nat.ne_of_lt hlt.2


theorem projections_lookup {α : Type} [LinearOrderedField α] (cam : CameraModel α)
    (intrinsics : Nat → EquiDistantRadialK3 α) (r : Nat → Mat3 α) (points : List (Vec3 α))
    (v : Nat) (proj : List (Nat × Nat))
    (h : mapFind intLt v (generateViews cam intrinsics r points).projections = some proj) :
    v < 3 ∧ proj = projectedOf cam intrinsics r points v := by
  rw [generateViews_eq] at h
  simp only [mapFind_cons_nat, mapFind_nil] at h
  split_ifs at h with h0 h1 h2
  · subst h0; exact ⟨by decide, (Option.some.inj h).symm⟩
  · subst h1; exact ⟨by decide, (Option.some.inj h).symm⟩
  · subst h2; exact ⟨by decide, (Option.some.inj h).symm⟩

theorem features_lookup {α : Type} [LinearOrderedField α] (cam : CameraModel α)
    (intrinsics : Nat → EquiDistantRadialK3 α) (r : Nat → Mat3 α) (points : List (Vec3 α))
    (v : Nat) (feats : List (PointFeature α))
    (h : mapFind intLt v (generateViews cam intrinsics r points).features = some feats) :
    v < 3 ∧ feats = featuresOf cam intrinsics r points v := by
  rw [generateViews_eq] at h
  simp only [mapFind_cons_nat, mapFind_nil] at h
  split_ifs at h with h0 h1 h2
  · subst h0; exact ⟨by decide, (Option.some.inj h).symm⟩
  · subst h1; exact ⟨by decide, (Option.some.inj h).symm⟩
  · subst h2; exact ⟨by decide, (Option.some.inj h).symm⟩

theorem pwMatches_lookup {α : Type} [LinearOrderedField α] (cam : CameraModel α)
    (intrinsics : Nat → EquiDistantRadialK3 α) (r : Nat → Mat3 α) (points : List (Vec3 α))
    (i j : Nat) (ms : List IndMatch)
    (h : mapFind pairLt (i, j) (pwMatchesOf cam intrinsics r points) = some ms) :
    i < 3 ∧ j < 3
    ∧ ms = matchViews (projectedOf cam intrinsics r points i)
        (projectedOf cam intrinsics r points j) := by
  rw [pwMatchesOf_eq] at h
  simp only [mapFind_cons_pair, Prod.mk.injEq, mapFind_nil] at h
  split_ifs at h with h1 h2 h3
  · obtain ⟨rfl, rfl⟩ := h1; exact ⟨by decide, by decide, (Option.some.inj h).symm⟩
  · obtain ⟨rfl, rfl⟩ := h2; exact ⟨by decide, by decide, (Option.some.inj h).symm⟩
  · obtain ⟨rfl, rfl⟩ := h3; exact ⟨by decide, by decide, (Option.some.inj h).symm⟩

theorem featuresOf_length {α : Type} [LinearOrderedField α] (cam : CameraModel α)
    (intrinsics : Nat → EquiDistantRadialK3 α) (r : Nat → Mat3 α) (points : List (Vec3 α))
    (v : Nat) :
    (featuresOf cam intrinsics r points v).length
      = points.countP (passesVisibility cam (intrinsics v) (r v)) := by
  simp [featuresOf, List.countP_eq_length_filter]

/-- C14: in every view the ids recorded in `projections[v]` are `0, 1, ..., n_v - 1` in
increasing order of sample index, `n_v` being the number of features of the view; the
map from sample index to id is injective and `features[v][id of p]` is the observation
of sample `p` in view `v`; hence for every match `(a, b)` stored for a pair `(i, j)`,
`a < |features_i|` and `b < |features_j|`, the lookups `features[i][a]` and
`features[j][b]` succeed, and no feature of either view occurs in two matches of the
pair. -/
theorem C14_feature_ids_valid {α : Type} [LinearOrderedField α] (cam : CameraModel α)
    (intrinsics : Nat → EquiDistantRadialK3 α) (r : Nat → Mat3 α) (points : List (Vec3 α)) :
    (∀ (v : Nat) (proj : List (Nat × Nat)) (feats : List (PointFeature α)),
      mapFind intLt v (generateViews cam intrinsics r points).projections = some proj →
      mapFind intLt v (generateViews cam intrinsics r points).features = some feats →
        proj.map Prod.snd = List.range feats.length
        ∧ proj.Pairwise (fun x y => x.1 < y.1)
        ∧ (∀ p q a : Nat, mapFind intLt p proj = some a → mapFind intLt q proj = some a →
            p = q)
        ∧ ∀ p a : Nat, mapFind intLt p proj = some a →
            ∃ pt : Vec3 α, points[p]? = some pt
              ∧ feats[a]? = some (observe cam (intrinsics v) (r v) pt))
    ∧ ∀ (i j : Nat) (ms : List IndMatch) (feats_i feats_j : List (PointFeature α)),
      mapFind pairLt (i, j) (pwMatchesOf cam intrinsics r points) = some ms →
      mapFind intLt i (generateViews cam intrinsics r points).features = some feats_i →
      mapFind intLt j (generateViews cam intrinsics r points).features = some feats_j →
        (∀ m ∈ ms, m._i < feats_i.length ∧ m._j < feats_j.length
          ∧ featureAt (generateViews cam intrinsics r points).features i m._i
              = feats_i[m._i]?
          ∧ featureAt (generateViews cam intrinsics r points).features j m._j
              = feats_j[m._j]?)
        ∧ (ms.map fun m => m._i).Nodup
        ∧ (ms.map fun m => m._j).Nodup := by
  constructor
  · intro v proj feats hproj hfeats
    obtain ⟨_, rfl⟩ := projections_lookup cam intrinsics r points v proj hproj
    obtain ⟨_, rfl⟩ := features_lookup cam intrinsics r points v feats hfeats
    refine ⟨?_, assignIds_keys_increasing _ points 0 0, ?_, ?_⟩
    · rw [projectedOf, assignIds_map_snd, featuresOf_length, List.range_eq_range']
    · intro p q a hp hq
      exact assignIds_injective _ points p q a hp hq
    · intro p a hp
      obtain ⟨pt, hpt, hpass, rfl⟩ := (mapFind_assignIds_some _ points 0 p a).mp hp
      refine ⟨pt, hpt, ?_⟩
      simp only [featuresOf, List.getElem?_map, Nat.zero_add]
      rw [filter_getElem_countP _ points p pt hpt hpass]
      rfl
  · intro i j ms feats_i feats_j hms hi hj
    obtain ⟨hi3, hj3, rfl⟩ := pwMatches_lookup cam intrinsics r points i j ms hms
    obtain ⟨_, rfl⟩ := features_lookup cam intrinsics r points i feats_i hi
    obtain ⟨_, rfl⟩ := features_lookup cam intrinsics r points j feats_j hj
    refine ⟨?_, matchViews_nodup _ _ points⟩
    intro m hm
    obtain ⟨h1, h2⟩ := matchViews_in_bounds cam intrinsics r points i j m hm
    exact ⟨h1, h2, featureAt_generated cam intrinsics r points i m._i hi3,
      featureAt_generated cam intrinsics r points j m._j hj3⟩


/-- C14 at the concrete scene: the pair `(0, 1)` holds the matches `(0, 0)` and
`(2, 1)`; the id 2 is a valid position of the features of view 0, the id 1 of those of
view 1, and no id is repeated. -/
theorem C14_feature_ids_valid_witness :
    mapFind pairLt (0, 1) (pwMatchesOf sampleCamera sampleIntrinsics sampleRotations samplePoints)
        = some [⟨0, 0, 2 / 5⟩, ⟨2, 1, 2 / 5⟩]
    ∧ 2 < (featuresOf sampleCamera sampleIntrinsics sampleRotations samplePoints 0).length
    ∧ 1 < (featuresOf sampleCamera sampleIntrinsics sampleRotations samplePoints 1).length
    ∧ (([⟨0, 0, 2 / 5⟩, ⟨2, 1, 2 / 5⟩] : List IndMatch).map fun m => m._i).Nodup
    ∧ (([⟨0, 0, 2 / 5⟩, ⟨2, 1, 2 / 5⟩] : List IndMatch).map fun m => m._j).Nodup := by
  have hms : mapFind pairLt (0, 1)
      (pwMatchesOf sampleCamera sampleIntrinsics sampleRotations samplePoints)
        = some [⟨0, 0, 2 / 5⟩, ⟨2, 1, 2 / 5⟩] := by
    rw [sample_pwMatches]
    simp [mapFind, pairLt]
  have h0 : mapFind intLt 0
      (generateViews sampleCamera sampleIntrinsics sampleRotations samplePoints).features
        = some (featuresOf sampleCamera sampleIntrinsics sampleRotations samplePoints 0) := by
    rw [generateViews_eq]
    simp [mapFind_cons_nat]
  have h1 : mapFind intLt 1
      (generateViews sampleCamera sampleIntrinsics sampleRotations samplePoints).features
        = some (featuresOf sampleCamera sampleIntrinsics sampleRotations samplePoints 1) := by
    rw [generateViews_eq]
    simp [mapFind_cons_nat]
  obtain ⟨hb, hni, hnj⟩ :=
    (C14_feature_ids_valid sampleCamera sampleIntrinsics sampleRotations samplePoints).2
      0 1 _ _ _ hms h0 h1
  have hm := hb ⟨2, 1, 2 / 5⟩ (by simp)
  exact ⟨hms, hm.1, hm.2.1, hni, hnj⟩

end PanoramaEstimation
